import Mathlib

/-!
# The models package: pages, sending profiles, groups, templates and results

A shallow embedding of `Page.Validate`, `Page.parseHTML` and `PostPage`
(`models/page.go`), of the lookups and deletes of pages and sending profiles in the
document store, of `SMTP.Validate` and `SMTP.GetDialer` (`models/smtp.go`), of
`Group.Validate` (`models/group.go`), of `Template.Validate` (`models/template.go`) and of
the event handlers, `GenerateId` and `ReplacingForMongo` of `models/result.go`.

* The parsed document is the `html.Node` tree of `golang.org/x/net/html`, kept in its
  own first-child / next-sibling form.  A node is addressed by the path of links that
  leads to it, which plays the role of the `*html.Node` pointer held by a goquery
  selection; an in-place attribute update is an update of the tree at that path.
* The attribute helpers follow goquery (`SetAttr`, `RemoveAttr`, `Attr`) on the
  attribute slice of a node.  A slice may hold several attributes with one key: the
  tokenizer of `x/net/html` keeps every attribute it reads.
* The collaborators that are not part of these files (template validation, HTML parsing
  and rendering, `strings.EqualFold`) are the fields of `Env`; `mail.ParseAddress`,
  `os.Hostname`, the attachment check, the event names, the outcome of `createEvent`, the
  random source and the lookup in the results table are parameters of the functions
  that use them.
* A collection of the document store is the list of its documents; `FindOne`,
  `DeleteOne` and `ReplaceOne` act on the first document that satisfies an equality
  filter.
* An `int64` is an integer; where a sum can leave the range (`PostPage`) the wrap-around
  is explicit.
-/

namespace Models

/-! ## Errors and collaborators -/

/-- An error value as returned through Go's `error` interface. -/
inductive Error where
  /-- The variable `ErrPageNameNotSpecified` of `page.go`. -/
  | ErrPageNameNotSpecified
  /-- The variable `ErrFromAddressNotSpecified` of `smtp.go`. -/
  | ErrFromAddressNotSpecified
  /-- The variable `ErrHostNotSpecified` of `smtp.go`. -/
  | ErrHostNotSpecified
  /-- The variable `ErrInvalidHost` of `smtp.go`. -/
  | ErrInvalidHost
  /-- The variable `mongo.ErrNoDocuments` of the MongoDB driver. -/
  | ErrNoDocuments
  /-- The variable `ErrGroupNameNotSpecified` of `group.go`. -/
  | ErrGroupNameNotSpecified
  /-- The variable `ErrNoTargetsSpecified` of `group.go`. -/
  | ErrNoTargetsSpecified
  /-- The variable `ErrTemplateNameNotSpecified` of `template.go`. -/
  | ErrTemplateNameNotSpecified
  /-- The variable `ErrTemplateMissingParameter` of `template.go`. -/
  | ErrTemplateMissingParameter
  /-- The variable `gorm.ErrRecordNotFound`. -/
  | ErrRecordNotFound
  /-- Any other error: one produced by a collaborator (template validation, parsing,
  rendering, address parsing) or built with `fmt.Errorf`. -/
  | other (msg : String)
deriving DecidableEq, Repr

/-- Attribute of an element: `html.Attribute`. -/
structure Attribute where
  Namespace : String
  Key : String
  Val : String
deriving DecidableEq, Repr

/-- Node kinds of `html.NodeType` that carry no children in a parsed tree. -/
inductive LeafType where
  | TextNode
  | CommentNode
  | DoctypeNode
  | RawNode
deriving DecidableEq, Repr

/-- The tree of `html.Node` values below a document, through the `FirstChild` and
`NextSibling` links.  `nil` is the nil pointer.  `html.Parse` attaches children and
(for what matters here) attributes to element nodes only, so a text, comment or doctype
node has a `NextSibling` link and nothing else.  A document is given by the first child
of its `DocumentNode`. -/
inductive Node where
  | nil : Node
  | leaf (Kind : LeafType) (Data : String) (NextSibling : Node) : Node
  | element (Data : String) (Attr : List Attribute) (FirstChild NextSibling : Node) : Node
deriving DecidableEq, Repr

/-- One link followed from a node. -/
inductive Step where
  | FirstChild
  | NextSibling
deriving DecidableEq, Repr

/-- The position of a node: the links followed from the first top-level node of the
document.  It stands for the `*html.Node` pointer of a goquery selection. -/
abbrev Path := List Step

/-- The collaborators of `page.go` that live outside it. -/
structure Env where
  /-- The function `strings.EqualFold`: equality under Unicode case folding. -/
  EqualFold : String → String → Bool
  /-- The function `ValidateTemplate` of the models package: `none` is a nil error. -/
  ValidateTemplate : String → Option Error
  /-- The function `goquery.NewDocumentFromReader` applied to the string's reader. -/
  NewDocumentFromReader : String → Except Error Node
  /-- The method `(*goquery.Document).Html`: the returned string and the returned error. -/
  Html : Node → String × Option Error

/-! ## Attribute helpers of goquery -/

/-- The helper `getAttributeValue`: value of the first attribute with the given key, and
whether there is one.  This is what `Selection.Attr` returns for a one-node selection. -/
def getAttributeValue (attrName : String) : List Attribute → String × Bool
  | [] => ("", false)
  | a :: rest => if a.Key = attrName then (a.Val, true) else getAttributeValue attrName rest

/-- The method `Selection.SetAttr` on one node: overwrite the value of the first attribute
with that key, or append a new attribute when there is none. -/
def SetAttr (attrName val : String) : List Attribute → List Attribute
  | [] => [{ Namespace := "", Key := attrName, Val := val }]
  | a :: rest =>
    if a.Key = attrName then { a with Val := val } :: rest
    else a :: SetAttr attrName val rest

/-- The method `Selection.RemoveAttr` on one node (`removeAttr`): the first attribute with
that key is overwritten by the last attribute of the slice and the slice is shortened by
one; the loop returns after this first hit. -/
def RemoveAttr (attrName : String) : List Attribute → List Attribute
  | [] => []
  | a :: rest =>
    if a.Key = attrName then
      match rest.getLast? with
      | none => []
      | some l => l :: rest.dropLast
    else a :: RemoveAttr attrName rest

/-! ## Access to the tree by path -/

/-- The node reached from `n` along a path (`nil` when a link is missing). -/
def nodeAt : Path → Node → Node
  | [], n => n
  | Step.FirstChild :: p, Node.element _ _ fc _ => nodeAt p fc
  | Step.NextSibling :: p, Node.element _ _ _ ns => nodeAt p ns
  | Step.NextSibling :: p, Node.leaf _ _ ns => nodeAt p ns
  | _ :: _, _ => Node.nil

/-- Tag name (`Data`) of the element at a path, if the path leads to an element. -/
def tagAt (p : Path) (d : Node) : Option String :=
  match nodeAt p d with
  | Node.element tag _ _ _ => some tag
  | _ => none

/-- Attribute slice of the element at a path, if the path leads to an element. -/
def attrsAt (p : Path) (d : Node) : Option (List Attribute) :=
  match nodeAt p d with
  | Node.element _ attr _ _ => some attr
  | _ => none

/-- The `FirstChild` link of the node at a path. -/
def firstChildAt (p : Path) (d : Node) : Node :=
  match nodeAt p d with
  | Node.element _ _ fc _ => fc
  | _ => Node.nil

/-- In-place update of the attribute slice of the element at a path.  Nothing happens
when the path does not lead to an element. -/
def modifyAt (f : List Attribute → List Attribute) : Path → Node → Node
  | _, Node.nil => Node.nil
  | [], Node.leaf t s ns => Node.leaf t s ns
  | [], Node.element tag attr fc ns => Node.element tag (f attr) fc ns
  | Step.FirstChild :: _, Node.leaf t s ns => Node.leaf t s ns
  | Step.FirstChild :: p, Node.element tag attr fc ns =>
    Node.element tag attr (modifyAt f p fc) ns
  | Step.NextSibling :: p, Node.leaf t s ns => Node.leaf t s (modifyAt f p ns)
  | Step.NextSibling :: p, Node.element tag attr fc ns =>
    Node.element tag attr fc (modifyAt f p ns)

/-- The call `input.Attr(name)` on the one-node selection at a path. -/
def AttrAt (d : Node) (p : Path) (attrName : String) : String × Bool :=
  match attrsAt p d with
  | some attr => getAttributeValue attrName attr
  | none => ("", false)

/-! ## Selections -/

/-- The matcher of a tag selector run as goquery's `findWithMatcher` does over a chain of
siblings: for `n` and each following sibling that is an element, cascadia's `MatchAll`
collects the node itself when its tag is `tag` and then the matches below it, in document
order.  The result lists the positions relative to `n`. -/
def matchAll (tag : String) : Node → List Path
  | Node.nil => []
  | Node.leaf _ _ ns => (matchAll tag ns).map (Step.NextSibling :: ·)
  | Node.element data _ fc ns =>
    (if data = tag then [[]] else [])
      ++ (matchAll tag fc).map (Step.FirstChild :: ·)
      ++ (matchAll tag ns).map (Step.NextSibling :: ·)

/-- The call `d.Find(tag)` on a document: every element below the document node. -/
def Find (d : Node) (tag : String) : List Path :=
  matchAll tag d

/-- The call `f.Find(tag)` on the one-node selection at path `f`: the matching proper
descendants of that node.  (Nodes of one subtree are pairwise distinct, so the
duplicate filter of `mapNodes` keeps all of them.) -/
def FindIn (d : Node) (f : Path) (tag : String) : List Path :=
  (matchAll tag (firstChildAt f d)).map (fun r => f ++ Step.FirstChild :: r)

/-! ## `models/page.go` -/

/-- The struct `Page`. -/
structure Page where
  Id : Int
  UserId : Int
  Name : String
  HTML : String
  CaptureCredentials : Bool
  CapturePasswords : Bool
  RedirectURL : String
  ModifiedDate : Int
deriving DecidableEq, Repr

/-- Body of the callback that `parseHTML` passes to `forms.Each`, run on the form at
path `f` with the document in state `d`; `c` and `pw` are `p.CaptureCredentials` and
`p.CapturePasswords`. -/
def eachForm (env : Env) (c pw : Bool) (d : Node) (f : Path) : Node :=
  let d1 := modifyAt (SetAttr "action" "") f d
  if c then
    if !pw then
      (FindIn d1 f "input").foldl
        (fun d input =>
          if env.EqualFold (AttrAt d input "type").1 "password" then
            modifyAt (RemoveAttr "name") input d
          else d) d1
    else
      (FindIn d1 f "input").foldl
        (fun d input =>
          if env.EqualFold (AttrAt d input "type").1 "password" then
            modifyAt (SetAttr "name" "password") input d
          else d) d1
  else
    (FindIn d1 f "input").foldl (fun d input => modifyAt (RemoveAttr "name") input d) d1

/-- The tree part of `parseHTML`: `forms := d.Find("form")` and `forms.Each(...)`. -/
def rewriteForms (env : Env) (c pw : Bool) (d : Node) : Node :=
  (Find d "form").foldl (eachForm env c pw) d

/-- The method `(*Page).parseHTML`: the page afterwards and the returned error. -/
def Page.parseHTML (env : Env) (p : Page) : Page × Option Error :=
  match env.NewDocumentFromReader p.HTML with
  | Except.error err => (p, some err)
  | Except.ok d =>
    let out := env.Html (rewriteForms env p.CaptureCredentials p.CapturePasswords d)
    ({ p with HTML := out.1 }, out.2)

/-- The method `(*Page).Validate`: the page afterwards and the returned error. -/
def Page.Validate (env : Env) (p : Page) : Page × Option Error :=
  if p.Name = "" then (p, some Error.ErrPageNameNotSpecified)
  else
    let p1 := if p.CapturePasswords && !p.CaptureCredentials then
      { p with CaptureCredentials := true } else p
    match env.ValidateTemplate p1.HTML with
    | some err => (p1, some err)
    | none =>
      match env.ValidateTemplate p1.RedirectURL with
      | some err => (p1, some err)
      | none => p1.parseHTML env

/-! ## The rewrite as a list of attribute edits -/

/-- The tree with every attribute slice emptied: what selections by tag depend on. -/
def shape : Node → Node
  | Node.nil => Node.nil
  | Node.leaf t s ns => Node.leaf t s (shape ns)
  | Node.element tag _ fc ns => Node.element tag [] (shape fc) (shape ns)

/-- What the input callbacks of `parseHTML` do to the attribute slice of one input, for
the flags `c` (capture credentials) and `pw` (capture passwords). -/
def inputEdit (env : Env) (c pw : Bool) (a : List Attribute) : List Attribute :=
  if c then
    if !pw then
      if env.EqualFold (getAttributeValue "type" a).1 "password" then RemoveAttr "name" a else a
    else
      if env.EqualFold (getAttributeValue "type" a).1 "password" then
        SetAttr "name" "password" a
      else a
  else RemoveAttr "name" a

/-- An attribute update aimed at one node. -/
abbrev Edit := Path × (List Attribute → List Attribute)

/-- Run a list of edits from left to right. -/
def applyEdits (es : List Edit) (d : Node) : Node :=
  es.foldl (fun d e => modifyAt e.2 e.1 d) d

/-- The edits that the callback of `forms.Each` makes for the form at `f`. -/
def formEdits (env : Env) (c pw : Bool) (d : Node) (f : Path) : List Edit :=
  (f, SetAttr "action" "") :: (FindIn d f "input").map (fun i => (i, inputEdit env c pw))

/-- All edits of one run of the rewrite, in the order in which they are made. -/
def edits (env : Env) (c pw : Bool) (d : Node) : List Edit :=
  ((Find d "form").map (formEdits env c pw d)).flatten

/-- The edits of a list that are aimed at the node `q`, applied in turn to its slice. -/
def editsAt (q : Path) (es : List Edit) (a : List Attribute) : List Attribute :=
  (es.filter (fun e => decide (e.1 = q))).foldl (fun a e => e.2 a) a

/-! ## Sample data -/

/-- ASCII case-insensitive equality of strings; `strings.EqualFold` gives the same answer
on ASCII strings. -/
def asciiEqualFold (s t : String) : Bool :=
  s.toList.map Char.toLower = t.toList.map Char.toLower

/-- Attribute without a namespace. -/
def attr (k v : String) : Attribute :=
  { Namespace := "", Key := k, Val := v }

/-- The tree that `html.Parse` builds around a body: `<html><head></head><body>…</body></html>`. -/
def htmlPage (body : Node) : Node :=
  Node.element "html" []
    (Node.element "head" [] Node.nil (Node.element "body" [] body Node.nil))
    Node.nil

/-- Position of the first node of the body in `htmlPage body`. -/
def bodyFirst : Path :=
  [Step.FirstChild, Step.NextSibling, Step.FirstChild]

/-- Position of the first child of the first node of the body. -/
def bodyFirstChild : Path :=
  [Step.FirstChild, Step.NextSibling, Step.FirstChild, Step.FirstChild]

/-- Position of the second child of the first node of the body. -/
def bodySecondChild : Path :=
  [Step.FirstChild, Step.NextSibling, Step.FirstChild, Step.FirstChild, Step.NextSibling]

/-- The tree of `<form><input type='password' name='pw'><input type='text' name='u'></form>`,
the two-input form of the specification. -/
def sampleDoc : Node :=
  htmlPage
    (Node.element "form" []
      (Node.element "input" [attr "type" "password", attr "name" "pw"] Node.nil
        (Node.element "input" [attr "type" "text", attr "name" "u"] Node.nil Node.nil))
      Node.nil)

/-- The tree of `<form><input name="a" name="b"></form>`: one input with two `name`
attributes. -/
def dupNameDoc : Node :=
  htmlPage
    (Node.element "form" []
      (Node.element "input" [attr "name" "a", attr "name" "b"] Node.nil Node.nil)
      Node.nil)

/-- The tree of `<form><input type="PASSWORD" name="a" name="b"></form>`. -/
def dupNamePasswordDoc : Node :=
  htmlPage
    (Node.element "form" []
      (Node.element "input" [attr "type" "PASSWORD", attr "name" "a", attr "name" "b"]
        Node.nil Node.nil)
      Node.nil)

/-- A small environment: the template validator rejects a lone opening delimiter, the
parser returns `sampleDoc` and rendering always succeeds. -/
def sampleEnv : Env where
  EqualFold := asciiEqualFold
  ValidateTemplate := fun s =>
    if s = "\x7b\x7b" then some (Error.other "template: unexpected EOF") else none
  NewDocumentFromReader := fun _ => Except.ok sampleDoc
  Html := fun _ => ("<form action=\"\"></form>", none)

/-- A named page that asks for passwords but not for credentials. -/
def samplePage : Page :=
  { Id := 0, UserId := 1, Name := "Login", HTML := "<form></form>",
    CaptureCredentials := false, CapturePasswords := true, RedirectURL := "",
    ModifiedDate := 0 }

/-- Whether no `<input>` of the tree carries more than one `name` attribute. -/
def singleName : Node → Bool
  | Node.nil => true
  | Node.leaf _ _ ns => singleName ns
  | Node.element tag a fc ns =>
    (decide (tag ≠ "input") || decide (a.countP (fun x => decide (x.Key = "name")) ≤ 1))
      && singleName fc && singleName ns

/-- The node at `q` is a proper descendant of a `<form>` element of `d`. -/
def InsideForm (d : Node) (q : Path) : Prop :=
  ∃ (f r : Path), tagAt f d = some "form" ∧ q = f ++ Step.FirstChild :: r

/-- The sample page without a name. -/
def namelessPage : Page :=
  { samplePage with Name := "" }

/-- The sample page with HTML that the sample template validator rejects. -/
def badTemplatePage : Page :=
  { samplePage with HTML := "\x7b\x7b" }

/-! ## The document store -/

/-- A BSON value as it occurs in the documents and filters of this package. -/
inductive Value where
  | int64 (v : Int)
  | string (v : String)
  | bool (v : Bool)
deriving DecidableEq, Repr

/-- A filter of type `bson.D`: the listed fields must all have the listed values. -/
abbrev Filter := List (String × Value)

/-- Whether a document, seen through its fields, satisfies an equality filter. -/
def matchesFilter (field : String → Option Value) (f : Filter) : Bool :=
  f.all (fun kv => decide (field kv.1 = some kv.2))

/-- The call `collection.FindOne(ctx, filter).Decode(&doc)` on a collection holding
`docs`: the first document that satisfies the filter, or `mongo.ErrNoDocuments`. -/
def FindOne {α : Type} (field : α → String → Option Value) (docs : List α) (f : Filter) :
    Except Error α :=
  match docs.find? (fun d => matchesFilter (field d) f) with
  | some d => Except.ok d
  | none => Except.error Error.ErrNoDocuments

/-- The call `collection.DeleteOne(ctx, filter)`: the collection afterwards and the
`DeletedCount` of the result.  The first document that satisfies the filter is removed. -/
def DeleteOne {α : Type} (field : α → String → Option Value) :
    List α → Filter → List α × Nat
  | [], _ => ([], 0)
  | d :: docs, f =>
    if matchesFilter (field d) f then (docs, 1)
    else ((DeleteOne field docs f).1.cons d, (DeleteOne field docs f).2)

/-- The fields of a stored `Page` under the names that the driver gives them (the
lower-cased field names of the struct, which has no `bson` tags). -/
def Page.field (p : Page) (k : String) : Option Value :=
  if k = "id" then some (Value.int64 p.Id)
  else if k = "userid" then some (Value.int64 p.UserId)
  else if k = "name" then some (Value.string p.Name)
  else if k = "html" then some (Value.string p.HTML)
  else if k = "capturecredentials" then some (Value.bool p.CaptureCredentials)
  else if k = "capturepasswords" then some (Value.bool p.CapturePasswords)
  else if k = "redirecturl" then some (Value.string p.RedirectURL)
  else if k = "modifieddate" then some (Value.int64 p.ModifiedDate)
  else none

/-- The zero value `Page{}`. -/
def emptyPage : Page :=
  { Id := 0, UserId := 0, Name := "", HTML := "", CaptureCredentials := false,
    CapturePasswords := false, RedirectURL := "", ModifiedDate := 0 }

/-- What `fmt.Errorf` prints for the verb `%d` given a string operand. -/
def badVerbD (s : String) : String :=
  "%!d(string=" ++ s ++ ")"

/-- The function `GetPage` over the `pages` collection. -/
def GetPage (pages : List Page) (id : Int) (_uid : Int) : Page × Option Error :=
  let p := emptyPage
  let filter : Filter := [("id", Value.int64 id)]
  match FindOne Page.field pages filter with
  | Except.error err =>
    if err = Error.ErrNoDocuments then
      (p, some (Error.other ("no document found with id " ++ toString id)))
    else (p, some err)
  | Except.ok results => (results, none)

/-- The function `GetPageByName` over the `pages` collection. -/
def GetPageByName (pages : List Page) (n : String) (_uid : Int) : Page × Option Error :=
  let p := emptyPage
  let filter : Filter := [("name", Value.string n)]
  match FindOne Page.field pages filter with
  | Except.error err =>
    if err = Error.ErrNoDocuments then
      (p, some (Error.other ("no document found with name " ++ badVerbD n)))
    else (p, some err)
  | Except.ok results => (results, none)

/-- The function `DeletePage` over the `pages` collection: the collection afterwards and
the returned error.  The driver call itself is taken to succeed, so `err` is nil. -/
def DeletePage (pages : List Page) (id : Int) (uid : Int) : List Page × Option Error :=
  let filter : Filter := [("userid", Value.int64 uid), ("id", Value.int64 id)]
  let result := DeleteOne Page.field pages filter
  let err : Option Error := none
  (result.1, err)

/-! ## `models/smtp.go` -/

/-- The struct `Header`. -/
structure Header where
  Id : Int
  SMTPId : Int
  Key : String
  Value : String
deriving DecidableEq, Repr

/-- The struct `SMTP`. -/
structure SMTP where
  Id : Int
  UserId : Int
  Interface : String
  Name : String
  Host : String
  Username : String
  Password : String
  FromAddress : String
  IgnoreCertErrors : Bool
  Headers : List Header
  ModifiedDate : Int
deriving DecidableEq, Repr

/-- The zero value `SMTP{}`. -/
def emptySMTP : SMTP :=
  { Id := 0, UserId := 0, Interface := "", Name := "", Host := "", Username := "",
    Password := "", FromAddress := "", IgnoreCertErrors := false, Headers := [],
    ModifiedDate := 0 }

/-- The scalar fields of a stored `SMTP` under the names that the driver gives them. -/
def SMTP.field (s : SMTP) (k : String) : Option Value :=
  if k = "id" then some (Value.int64 s.Id)
  else if k = "userid" then some (Value.int64 s.UserId)
  else if k = "interface" then some (Value.string s.Interface)
  else if k = "name" then some (Value.string s.Name)
  else if k = "host" then some (Value.string s.Host)
  else if k = "username" then some (Value.string s.Username)
  else if k = "password" then some (Value.string s.Password)
  else if k = "fromaddress" then some (Value.string s.FromAddress)
  else if k = "ignorecerterrors" then some (Value.bool s.IgnoreCertErrors)
  else if k = "modifieddate" then some (Value.int64 s.ModifiedDate)
  else none

/-- The function `strings.Split(s, sep)` for a one-character separator, on the characters
of the string: the pieces between the separators, one more than there are separators. -/
def splitChars (sep : Char) : List Char → List (List Char)
  | [] => [[]]
  | c :: cs =>
    if c = sep then [] :: splitChars sep cs
    else
      match splitChars sep cs with
      | [] => [[c]]
      | piece :: pieces => (c :: piece) :: pieces

/-- The call `strings.Split(s, ":")`. -/
def Split (s : String) : List String :=
  (splitChars ':' s.toList).map String.mk

/-- The function `strconv.Atoi` where `int` has 64 bits: an optional sign followed by one
or more decimal digits, with a value that fits `int`. -/
def Atoi (s : String) : Except Error Int :=
  let cs := s.toList
  let neg : Bool := decide (cs.head? = some '-')
  let ds := if cs.head? = some '-' ∨ cs.head? = some '+' then cs.tail else cs
  if ds = [] ∨ ds.all Char.isDigit = false then
    Except.error (Error.other "strconv.Atoi: invalid syntax")
  else
    let n : Nat := ds.foldl (fun n c => n * 10 + (c.toNat - 48)) 0
    if neg then
      if 2 ^ 63 < n then Except.error (Error.other "strconv.Atoi: value out of range")
      else Except.ok (-(n : Int))
    else
      if 2 ^ 63 ≤ n then Except.error (Error.other "strconv.Atoi: value out of range")
      else Except.ok (n : Int)

/-- The method `(*SMTP).Validate`.  `ParseAddress` stands for `mail.ParseAddress`, of
which only the returned error is used. -/
def SMTP.Validate (ParseAddress : String → Option Error) (s : SMTP) : Option Error :=
  if s.FromAddress = "" then some Error.ErrFromAddressNotSpecified
  else if s.Host = "" then some Error.ErrHostNotSpecified
  else
    match ParseAddress s.FromAddress with
    | some err => some err
    | none =>
      let hp := Split s.Host
      if 2 < hp.length then some Error.ErrInvalidHost
      else
        let hp := if hp.length < 2 then hp ++ ["25"] else hp
        match Atoi (hp.getD 1 "") with
        | Except.error _ => some Error.ErrInvalidHost
        | Except.ok _ => none

/-- The function `GetSMTP` over the `smtp` collection. -/
def GetSMTP (smtps : List SMTP) (id : Int) (uid : Int) : SMTP × Option Error :=
  let s := emptySMTP
  let filter : Filter := [("userid", Value.int64 uid), ("id", Value.int64 id)]
  match FindOne SMTP.field smtps filter with
  | Except.error err => (s, some err)
  | Except.ok _smtp => (s, none)

/-- The function `GetSMTPByName` over the `smtp` collection. -/
def GetSMTPByName (smtps : List SMTP) (n : String) (uid : Int) : SMTP × Option Error :=
  let s := emptySMTP
  let filter : Filter := [("userid", Value.int64 uid), ("name", Value.string n)]
  match FindOne SMTP.field smtps filter with
  | Except.error err => (s, some err)
  | Except.ok smtp => (smtp, none)

/-! ## The rewrite of the specification -/

/-- The operation `FormRewriter.Rewrite(html, captureCredentials, capturePasswords)` of
the specification: parse the markup, rewrite every form, serialize; a failure of parsing
or of serializing is the result. -/
def Rewrite (env : Env) (html : String) (c pw : Bool) : Except Error String :=
  match env.NewDocumentFromReader html with
  | Except.error err => Except.error err
  | Except.ok d =>
    match (env.Html (rewriteForms env c pw d)).2 with
    | some err => Except.error err
    | none => Except.ok (env.Html (rewriteForms env c pw d)).1

/-- The page after the flag normalization of `Validate`: `CaptureCredentials` becomes
`CaptureCredentials OR CapturePasswords`. -/
def normalizeFlags (p : Page) : Page :=
  { p with CaptureCredentials := p.CaptureCredentials || p.CapturePasswords }

/-! ## Sample data for stores, sending profiles and failing collaborators -/

/-- The sample environment with a parser that fails. -/
def failingParseEnv : Env :=
  { sampleEnv with
    NewDocumentFromReader := fun _ => Except.error (Error.other "unexpected EOF") }

/-- The sample environment with a serializer that fails; goquery's `Html` returns the
empty string together with the error. -/
def failingRenderEnv : Env :=
  { sampleEnv with Html := fun _ => ("", some (Error.other "html: cannot render node")) }

/-- The tree of `<form><div><form action="/login"></form></div></form>`: a form without
inputs that contains another form. -/
def nestedFormDoc : Node :=
  htmlPage
    (Node.element "form" []
      (Node.element "div" []
        (Node.element "form" [attr "action" "/login"] Node.nil Node.nil) Node.nil)
      Node.nil)

/-- The tree of `<form id="f"><p>hello</p></form>`: a form without inputs. -/
def noInputDoc : Node :=
  htmlPage
    (Node.element "form" [attr "id" "f"]
      (Node.element "p" [attr "class" "x"] (Node.leaf LeafType.TextNode "hello" Node.nil)
        Node.nil)
      Node.nil)

/-- A sending profile stored for user 1. -/
def sampleSMTP : SMTP :=
  { Id := 1, UserId := 1, Interface := "SMTP", Name := "Mail", Host := "smtp.example.com:587",
    Username := "u", Password := "p", FromAddress := "a@example.com",
    IgnoreCertErrors := false, Headers := [], ModifiedDate := 0 }

/-- An address parser that accepts exactly the strings containing `@`. -/
def sampleParseAddress (s : String) : Option Error :=
  if '@' ∈ s.toList then none else some (Error.other "mail: missing '@' or angle-addr")

/-- Number of `:` in a host string. -/
def colons (host : String) : Nat :=
  host.toList.count ':'

/-- The text after the first `:` of a host string. -/
def afterColon (host : String) : String :=
  String.mk (host.toList.dropWhile (fun c => c != ':')).tail

/-! ## `models/smtp.go`: the dialer -/

/-- The fields of the `gomail.Dialer` that `GetDialer` sets. -/
structure Dialer where
  Host : String
  Port : Int
  Username : String
  Password : String
  ServerName : String
  InsecureSkipVerify : Bool
  LocalName : String
deriving DecidableEq, Repr

/-- The method `(*SMTP).GetDialer`: the dialer (nil when the port does not parse) and the
returned error.  `osHostname` is the result of `os.Hostname()`. -/
def SMTP.GetDialer (osHostname : String × Option Error) (s : SMTP) :
    Option Dialer × Option Error :=
  let hp := Split s.Host
  let hp := if hp.length < 2 then hp ++ ["25"] else hp
  let host := hp.getD 0 ""
  match Atoi (hp.getD 1 "") with
  | Except.error err => (none, some err)
  | Except.ok port =>
    let hostname := if osHostname.2 = none then osHostname.1 else "localhost"
    (some { Host := host, Port := port, Username := s.Username, Password := s.Password,
            ServerName := host, InsecureSkipVerify := s.IgnoreCertErrors,
            LocalName := hostname }, osHostname.2)

/-- The text before the first `:` of a host string (all of it when there is none). -/
def beforeColon (host : String) : String :=
  String.mk (host.toList.takeWhile (fun c => c != ':'))

/-! ## `models/group.go` -/

/-- The struct `BaseRecipient`. -/
structure BaseRecipient where
  Email : String
  FirstName : String
  LastName : String
  Position : String
deriving DecidableEq, Repr

/-- The struct `Target`, which embeds `BaseRecipient`. -/
structure Target extends BaseRecipient where
  Id : Int
deriving DecidableEq, Repr

/-- The struct `Group`. -/
structure Group where
  Id : Int
  UserId : Int
  Name : String
  ModifiedDate : Int
  Targets : List Target
deriving DecidableEq, Repr

/-- The method `(*Group).Validate`: the group afterwards and the returned error. -/
def Group.Validate (g : Group) : Group × Option Error :=
  if g.Name = "" then (g, some Error.ErrGroupNameNotSpecified)
  else if g.Targets.length = 0 then (g, some Error.ErrNoTargetsSpecified)
  else (g, none)

/-! ## `models/template.go` -/

/-- The struct `Template`.  The struct `Attachment` is declared outside these files; its
type is the parameter `α`. -/
structure Template (α : Type) where
  Id : Int
  UserId : Int
  Name : String
  EnvelopeSender : String
  Subject : String
  Text : String
  HTML : String
  ModifiedDate : Int
  Attachments : List α

/-- The loop `for _, a := range t.Attachments` of `Template.Validate`: the first error
that an attachment's `Validate` returns. -/
def validateAttachments {α : Type} (attachmentValidate : α → Option Error) :
    List α → Option Error
  | [] => none
  | a :: rest =>
    match attachmentValidate a with
    | some err => some err
    | none => validateAttachments attachmentValidate rest

/-- The method `(*Template).Validate`.  `ParseAddress` stands for `mail.ParseAddress`,
`ValidateTemplate` for the function of that name and `attachmentValidate` for
`(*Attachment).Validate`, none of which is in these files. -/
def Template.Validate {α : Type} (ParseAddress : String → Option Error)
    (ValidateTemplate : String → Option Error) (attachmentValidate : α → Option Error)
    (t : Template α) : Option Error :=
  let rest : Option Error :=
    match ValidateTemplate t.HTML with
    | some err => some err
    | none =>
      match ValidateTemplate t.Text with
      | some err => some err
      | none => validateAttachments attachmentValidate t.Attachments
  if t.Name = "" then some Error.ErrTemplateNameNotSpecified
  else if t.Text = "" ∧ t.HTML = "" then some Error.ErrTemplateMissingParameter
  else if t.EnvelopeSender ≠ "" then
    match ParseAddress t.EnvelopeSender with
    | some err => some err
    | none => rest
  else rest

/-! ## `models/result.go` -/

/-- A `float64` value, kept as its bit pattern. -/
structure Float64 where
  bits : Nat
deriving DecidableEq, Repr

/-- The struct `Result`, which embeds `BaseRecipient`. -/
structure Result extends BaseRecipient where
  Id : Int
  CampaignId : Int
  UserId : Int
  RId : String
  Status : String
  IP : String
  Attach : Bool
  Latitude : Float64
  Longitude : Float64
  SendDate : Int
  Reported : Bool
  ModifiedDate : Int
deriving DecidableEq, Repr

/-- The struct `ResultTest`. -/
structure ResultTest where
  Id : Int
  CampaignId : Int
  UserId : Int
  RId : String
  Status : String
  IP : String
  Attach : Bool
  Latitude : Float64
  Longitude : Float64
  SendDate : Int
  Reported : Bool
  ModifiedDate : Int
  Email : String
  FirstName : String
  LastName : String
  Position : String
deriving DecidableEq, Repr

/-- The fields of a stored `ResultTest` that filters of this package name. -/
def ResultTest.field (d : ResultTest) (k : String) : Option Value :=
  if k = "id" then some (Value.int64 d.Id)
  else if k = "campaignid" then some (Value.int64 d.CampaignId)
  else if k = "userid" then some (Value.int64 d.UserId)
  else if k = "rid" then some (Value.string d.RId)
  else if k = "status" then some (Value.string d.Status)
  else none

/-- The call `collection.ReplaceOne(ctx, filter, doc, options.Replace().SetUpsert(true))`:
the first document that satisfies the filter is replaced; when there is none the
replacement is inserted. -/
def ReplaceOneUpsert {α : Type} (field : α → String → Option Value) :
    List α → Filter → α → List α
  | [], _, doc => [doc]
  | d :: docs, f, doc =>
    if matchesFilter (field d) f then doc :: docs
    else d :: ReplaceOneUpsert field docs f doc

/-- The filter `bson.M{"id": r.Id}` of `ReplacingForMongo`. -/
def ReplacingForMongo.filter (r : Result) : Filter :=
  [("id", Value.int64 r.Id)]

/-- The document `resultz` that `ReplacingForMongo` builds. -/
def ReplacingForMongo.resultz (r : Result) : ResultTest :=
  { Id := 1,
    CampaignId := r.Id,
    UserId := r.UserId,
    RId := r.RId,
    Status := r.Status,
    IP := r.IP,
    Attach := r.Attach,
    Latitude := r.Latitude,
    Longitude := r.Longitude,
    SendDate := r.SendDate,
    Reported := r.Reported,
    ModifiedDate := r.ModifiedDate,
    Email := r.Email,
    FirstName := r.FirstName,
    LastName := r.LastName,
    Position := r.Position }

/-- The method `(*Result).ReplacingForMongo` over the `results` collection: the collection
afterwards.  The driver call itself is taken to succeed. -/
def Result.ReplacingForMongo (results : List ResultTest) (r : Result) : List ResultTest :=
  ReplaceOneUpsert ResultTest.field results (ReplacingForMongo.filter r)
    (ReplacingForMongo.resultz r)

/-- The event names that the handlers of `result.go` compare and assign.  The constants
are declared outside these files. -/
structure Statuses where
  EventSent : String
  EventOpened : String
  EventClicked : String
  EventDataSubmit : String

/-- Outcome of `r.createEvent(...)` as far as a handler uses it: the `Time` of the event,
or the error of `json.Marshal`. -/
abbrev EventOutcome := Except Error Int

/-- The method `(*Result).HandleEmailOpened`: the result afterwards and the returned error.
`dbSave` stands for `db.Save(r).Error`. -/
def Result.HandleEmailOpened (st : Statuses) (event : EventOutcome)
    (dbSave : Result → Option Error) (r : Result) : Result × Option Error :=
  match event with
  | Except.error err => (r, some err)
  | Except.ok time =>
    if r.Status = st.EventClicked ∨ r.Status = st.EventDataSubmit then (r, none)
    else
      let r1 := { r with Status := st.EventOpened, ModifiedDate := time }
      (r1, dbSave r1)

/-- The method `(*Result).HandleAttachmentOpened`. -/
def Result.HandleAttachmentOpened (st : Statuses) (event : EventOutcome)
    (dbSave : Result → Option Error) (r : Result) : Result × Option Error :=
  match event with
  | Except.error err => (r, some err)
  | Except.ok time =>
    let r1 := if r.Status = st.EventSent then { r with Status := st.EventOpened } else r
    let r2 := { r1 with Attach := true, ModifiedDate := time }
    (r2, dbSave r2)

/-- The method `(*Result).HandleClickedLink`. -/
def Result.HandleClickedLink (st : Statuses) (event : EventOutcome)
    (dbSave : Result → Option Error) (r : Result) : Result × Option Error :=
  match event with
  | Except.error err => (r, some err)
  | Except.ok time =>
    if r.Status = st.EventDataSubmit then (r, none)
    else
      let r1 := { r with Status := st.EventClicked, ModifiedDate := time }
      (r1, dbSave r1)

/-- The method `(*Result).HandleFormSubmit`. -/
def Result.HandleFormSubmit (st : Statuses) (event : EventOutcome)
    (dbSave : Result → Option Error) (r : Result) : Result × Option Error :=
  match event with
  | Except.error err => (r, some err)
  | Except.ok time =>
    let r1 := { r with Status := st.EventDataSubmit, ModifiedDate := time }
    (r1, dbSave r1)

/-- The method `(*Result).HandleEmailReport`. -/
def Result.HandleEmailReport (event : EventOutcome)
    (dbSave : Result → Option Error) (r : Result) : Result × Option Error :=
  match event with
  | Except.error err => (r, some err)
  | Except.ok time =>
    let r1 := { r with Reported := true, ModifiedDate := time }
    (r1, dbSave r1)

/-- The constant `alphaNum` of `generateResultId`. -/
def alphaNum : String :=
  "abcdefghijklmnopqrstuvwxyzABCDEFGHIJKLMNOPQRSTUVWXYZ0123456789"

/-- The random source: the outcome of the `n`-th call `rand.Int(rand.Reader, 62)`, an
error or a number below 62. -/
abbrev RandSource := Nat → Except Error (Fin 62)

/-- The loop `for i := range k` of `generateResultId` with `n` positions still to fill:
`pos` counts the calls of `rand.Int` made so far and `k` holds the bytes already set. -/
def fillKey (rnd : RandSource) : Nat → Nat → List Char → Except Error (List Char) × Nat
  | 0, pos, k => (Except.ok k, pos)
  | n + 1, pos, k =>
    match rnd pos with
    | Except.error err => (Except.error err, pos + 1)
    | Except.ok idx => fillKey rnd n (pos + 1) (k ++ [alphaNum.toList.getD idx.val 'a'])

/-- The function `generateResultId`: the key or the error, and the number of calls of
`rand.Int` made so far. -/
def generateResultId (rnd : RandSource) (pos : Nat) : Except Error String × Nat :=
  match fillKey rnd 7 pos [] with
  | (Except.ok k, pos1) => (Except.ok (String.mk k), pos1)
  | (Except.error err, pos1) => (Except.error err, pos1)

/-- The method `(*Result).GenerateId`, with `fuel` bounding the number of rounds of its
`for` loop: the result afterwards and the returned error, or `none` when the loop is
still running after `fuel` rounds.  `lookup rid` stands for the error of
`tx.Table("results").Where("r_id=?", rid).First(&Result{})`. -/
def Result.GenerateId (rnd : RandSource) (lookup : String → Option Error) :
    Nat → Nat → Result → Option (Result × Option Error)
  | 0, _, _ => none
  | fuel + 1, pos, r =>
    match generateResultId rnd pos with
    | (Except.error err, _) => some (r, some err)
    | (Except.ok rid, pos1) =>
      let r1 := { r with RId := rid }
      if lookup r1.RId = some Error.ErrRecordNotFound then some (r1, none)
      else Result.GenerateId rnd lookup fuel pos1 r1

/-! ## `models/page.go`: creating a page -/

/-- Arithmetic of `int64`: the value of a sum after wrap-around. -/
def wrapInt64 (x : Int) : Int :=
  (x + 2 ^ 63) % 2 ^ 64 - 2 ^ 63

/-- The call `collection.FindOne(ctx, bson.D{}, options.FindOne().SetSort(id: -1))`: a
document with the largest `id`, if the collection has documents. -/
def highestPage : List Page → Option Page
  | [] => none
  | p :: ps =>
    match highestPage ps with
    | none => some p
    | some q => if q.Id ≤ p.Id then some p else some q

/-- The function `PostPage` over the `pages` collection: the collection afterwards, the
page afterwards and the returned error.  The driver calls themselves are taken to
succeed. -/
def PostPage (env : Env) (pages : List Page) (p : Page) : List Page × Page × Option Error :=
  match p.Validate env with
  | (p1, some err) => (pages, p1, some err)
  | (p1, none) =>
    let p2 : Page :=
      match highestPage pages with
      | some highest => { p1 with Id := wrapInt64 (highest.Id + 1) }
      | none => { p1 with Id := 1 }
    (pages ++ [p2], p2, none)

/-- Whether every `Id` of the collection is an `int64` value. -/
def idsInt64 (pages : List Page) : Prop :=
  ∀ q ∈ pages, -(2 ^ 63) ≤ q.Id ∧ q.Id < 2 ^ 63

/-! ## Sample data for groups, templates and results -/

/-- The event names of gophish. -/
def sampleStatuses : Statuses :=
  { EventSent := "Email Sent", EventOpened := "Email Opened",
    EventClicked := "Clicked Link", EventDataSubmit := "Submitted Data" }

/-- Position of a status in the funnel Sent, Opened, Clicked, Submitted Data; `none` for
any other status. -/
def funnelRank (st : Statuses) (s : String) : Option Nat :=
  if s = st.EventSent then some 0
  else if s = st.EventOpened then some 1
  else if s = st.EventClicked then some 2
  else if s = st.EventDataSubmit then some 3
  else none

/-- The four funnel names are pairwise different. -/
def Statuses.distinct (st : Statuses) : Prop :=
  st.EventSent ≠ st.EventOpened ∧ st.EventSent ≠ st.EventClicked ∧
  st.EventSent ≠ st.EventDataSubmit ∧ st.EventOpened ≠ st.EventClicked ∧
  st.EventOpened ≠ st.EventDataSubmit ∧ st.EventClicked ≠ st.EventDataSubmit

/-- A result of campaign 9 whose mail has been sent. -/
def sampleResult : Result :=
  { Email := "t@example.com", FirstName := "T", LastName := "U", Position := "Dev",
    Id := 5, CampaignId := 9, UserId := 1, RId := "abc1234", Status := "Email Sent",
    IP := "", Attach := false, Latitude := { bits := 0 }, Longitude := { bits := 0 },
    SendDate := 0, Reported := false, ModifiedDate := 0 }

/-- A `db.Save` that succeeds. -/
def saveOk (_r : Result) : Option Error :=
  none

/-- A random source that always draws index 0. -/
def zeroSource : RandSource :=
  fun _ => Except.ok ⟨0, by decide⟩

/-- A results table without any record. -/
def emptyLookup (_rid : String) : Option Error :=
  some Error.ErrRecordNotFound

/-- A page whose `Id` is the largest `int64`. -/
def maxIdPage : Page :=
  { samplePage with Id := 2 ^ 63 - 1 }

/-- The tree of `<input name="q"><form><input name="u"></form>`: one input outside and
one inside a form. -/
def outsideInputDoc : Node :=
  htmlPage
    (Node.element "input" [attr "name" "q"] Node.nil
      (Node.element "form" []
        (Node.element "input" [attr "name" "u"] Node.nil Node.nil) Node.nil))

/-- A tree with an input inside two nested forms, as the parser builds it for
`<form><div></form><form><input type="password" name="p"></form>`. -/
def nestedInputDoc : Node :=
  htmlPage
    (Node.element "form" []
      (Node.element "div" []
        (Node.element "form" []
          (Node.element "input" [attr "type" "password", attr "name" "p"] Node.nil Node.nil)
          Node.nil)
        Node.nil)
      Node.nil)

/-- A group with a name and one target. -/
def sampleGroup : Group :=
  { Id := 1, UserId := 1, Name := "Staff", ModifiedDate := 0,
    Targets := [{ Email := "t@example.com", FirstName := "T", LastName := "U",
                  Position := "Dev", Id := 1 }] }

/-- A template with a name, HTML content and one attachment (attachments are numbers
here, and `sampleAttachmentValidate` rejects the number 0). -/
def sampleTemplate : Template Nat :=
  { Id := 1, UserId := 1, Name := "Welcome", EnvelopeSender := "a@example.com",
    Subject := "Hi", Text := "", HTML := "<p>hi</p>", ModifiedDate := 0,
    Attachments := [1] }

/-- An attachment check that rejects the number 0. -/
def sampleAttachmentValidate (a : Nat) : Option Error :=
  if a = 0 then some (Error.other "attachment: invalid template") else none

/-- The five handlers of recipient events, for one outcome of `createEvent` and one
`db.Save`. -/
def recipientHandlers (st : Statuses) (event : EventOutcome)
    (dbSave : Result → Option Error) : List (Result → Result × Option Error) :=
  [Result.HandleEmailOpened st event dbSave, Result.HandleAttachmentOpened st event dbSave,
   Result.HandleClickedLink st event dbSave, Result.HandleFormSubmit st event dbSave,
   Result.HandleEmailReport event dbSave]

/-! ## A serializer and a table parser for sample pages -/

/-- The void elements of `html.Render`, written as `<tag/>`. -/
def voidElements : List String :=
  ["area", "base", "br", "col", "embed", "hr", "img", "input", "keygen", "link", "meta",
   "param", "source", "track", "wbr"]

/-- The attributes of an element as `html.Render` writes them.  Escaping of the value is
left out: the sample pages hold no character that needs it. -/
def renderAttrs : List Attribute → String
  | [] => ""
  | a :: rest =>
    " " ++ (if a.Namespace = "" then a.Key else a.Namespace ++ ":" ++ a.Key)
      ++ "=\"" ++ a.Val ++ "\"" ++ renderAttrs rest

/-- What `(*goquery.Document).Html` writes for a document: `html.Render` of every
top-level node in turn.  Text is written without escaping and the special treatment of
raw-text elements is left out: the sample pages need neither. -/
def renderNodes : Node → String
  | Node.nil => ""
  | Node.leaf kind data ns =>
    (match kind with
      | LeafType.CommentNode => String.mk ['<', '!', '-', '-'] ++ data ++ String.mk ['-', '-', '>']
      | LeafType.DoctypeNode => "<!DOCTYPE " ++ data ++ ">"
      | _ => data) ++ renderNodes ns
  | Node.element tag a fc ns =>
    if tag ∈ voidElements then "<" ++ tag ++ renderAttrs a ++ "/>" ++ renderNodes ns
    else
      "<" ++ tag ++ renderAttrs a ++ ">" ++ renderNodes fc ++ "</" ++ tag ++ ">"
        ++ renderNodes ns

/-- A page source in which the first form is closed while its `<div>` is still open. -/
def nestedSource : String :=
  "<form><div></form><form></form>"

/-- The tree that `html.Parse` builds for `nestedSource`: the second form goes into the
open `<div>`, which is inside the first form. -/
def nestedTree : Node :=
  htmlPage
    (Node.element "form" []
      (Node.element "div" [] (Node.element "form" [] Node.nil Node.nil) Node.nil)
      Node.nil)

/-- What `html.Render` writes for the rewritten `nestedTree`. -/
def nestedOutput : String :=
  "<html><head></head><body><form action=\"\"><div><form action=\"\"></form></div></form></body></html>"

/-- The tree that `html.Parse` builds for `nestedOutput`: a `<form>` start tag inside an
open form is ignored, so the inner form is gone. -/
def reparsedTree : Node :=
  htmlPage
    (Node.element "form" [attr "action" ""] (Node.element "div" [] Node.nil Node.nil) Node.nil)

/-- The two-input form of the specification as a page source. -/
def sampleSource : String :=
  "<form><input type=\"password\" name=\"pw\"><input type=\"text\" name=\"u\"></form>"

/-- The tree of `sampleSource` after the rewrite that captures credentials but not
passwords. -/
def sampleRewritten : Node :=
  htmlPage
    (Node.element "form" [attr "action" ""]
      (Node.element "input" [attr "type" "password"] Node.nil
        (Node.element "input" [attr "type" "text", attr "name" "u"] Node.nil Node.nil))
      Node.nil)

/-- What `html.Render` writes for `sampleRewritten`. -/
def sampleOutput : String :=
  "<html><head></head><body><form action=\"\"><input type=\"password\"/><input type=\"text\" name=\"u\"/></form></body></html>"

/-- An environment whose parser is the table of what `html.Parse` returns on the four
sample strings and whose serializer is `renderNodes`. -/
def tableEnv : Env where
  EqualFold := asciiEqualFold
  ValidateTemplate := fun _ => none
  NewDocumentFromReader := fun s =>
    if s = nestedSource then Except.ok nestedTree
    else if s = nestedOutput then Except.ok reparsedTree
    else if s = sampleSource then Except.ok sampleDoc
    else if s = sampleOutput then Except.ok sampleRewritten
    else Except.error (Error.other "not a sample page")
  Html := fun d => (renderNodes d, none)

/-- A page whose source is `nestedSource`. -/
def nestedPage : Page :=
  { samplePage with HTML := nestedSource }

/-- A page whose source is `sampleSource`, capturing credentials but not passwords. -/
def credentialsPage : Page :=
  { samplePage with HTML := sampleSource, CaptureCredentials := true,
                    CapturePasswords := false }

/-! ## Attribute slices -/

theorem getAttributeValue_SetAttr_same (k v : String) (a : List Attribute) :
    getAttributeValue k (SetAttr k v a) = (v, true) := by
  induction a with
  | nil => simp [SetAttr, getAttributeValue]
  | cons x rest ih =>
    by_cases h : x.Key = k
    · simp [SetAttr, getAttributeValue, h]
    · simp [SetAttr, getAttributeValue, h, ih]

theorem getAttributeValue_SetAttr_ne (k k2 v : String) (a : List Attribute) (hk : k2 ≠ k) :
    getAttributeValue k2 (SetAttr k v a) = getAttributeValue k2 a := by
  induction a with
  | nil => simp [SetAttr, getAttributeValue, Ne.symm hk]
  | cons x rest ih =>
    by_cases h : x.Key = k
    · simp [SetAttr, getAttributeValue, h, Ne.symm hk]
    · by_cases h3 : x.Key = k2
      · simp [SetAttr, getAttributeValue, h3, hk]
      · simp [SetAttr, getAttributeValue, h, h3, ih]

theorem SetAttr_idem (k v : String) (a : List Attribute) :
    SetAttr k v (SetAttr k v a) = SetAttr k v a := by
  induction a with
  | nil => simp [SetAttr]
  | cons x rest ih =>
    by_cases h : x.Key = k
    · simp [SetAttr, h]
    · simp [SetAttr, h, ih]

theorem RemoveAttr_of_absent (k : String) (a : List Attribute)
    (h : ∀ x ∈ a, x.Key ≠ k) : RemoveAttr k a = a := by
  induction a with
  | nil => rfl
  | cons x rest ih =>
    have hx : x.Key ≠ k := h x (List.mem_cons_self _ _)
    have hr : ∀ y ∈ rest, y.Key ≠ k := fun y hy => h y (List.mem_cons_of_mem _ hy)
    simp [RemoveAttr, hx, ih hr]

theorem mem_swapLast (rest : List Attribute) (y : Attribute)
    (hy : y ∈ (match rest.getLast? with
      | none => []
      | some l => l :: rest.dropLast)) : y ∈ rest := by
  cases hl : rest.getLast? with
  | none => simp [hl] at hy
  | some l =>
    simp only [hl, List.mem_cons] at hy
    rcases hy with rfl | hy
    · exact List.mem_of_getLast?_eq_some hl
    · exact List.mem_of_mem_dropLast hy

theorem RemoveAttr_absent_of_countP (k : String) (a : List Attribute)
    (h : a.countP (fun x => decide (x.Key = k)) ≤ 1) :
    ∀ y ∈ RemoveAttr k a, y.Key ≠ k := by
  induction a with
  | nil => simp [RemoveAttr]
  | cons x rest ih =>
    by_cases hx : x.Key = k
    · have h0 : rest.countP (fun x => decide (x.Key = k)) = 0 := by
        simp [List.countP_cons, hx] at h
        simpa using h
      have hr : ∀ y ∈ rest, y.Key ≠ k := by
        intro y hy
        have := (List.countP_eq_zero.mp h0) y hy
        simpa using this
      intro y hy
      simp only [RemoveAttr, hx, if_true] at hy
      exact hr y (mem_swapLast rest y hy)
    · have h1 : rest.countP (fun x => decide (x.Key = k)) ≤ 1 := by
        simpa [List.countP_cons, hx] using h
      intro y hy
      simp only [RemoveAttr, hx, if_false, List.mem_cons] at hy
      rcases hy with rfl | hy
      · exact hx
      · exact ih h1 y hy

theorem RemoveAttr_idem (k : String) (a : List Attribute)
    (h : a.countP (fun x => decide (x.Key = k)) ≤ 1) :
    RemoveAttr k (RemoveAttr k a) = RemoveAttr k a :=
  RemoveAttr_of_absent k _ (RemoveAttr_absent_of_countP k a h)

theorem getAttributeValue_of_absent (k : String) (a : List Attribute)
    (h : ∀ x ∈ a, x.Key ≠ k) : getAttributeValue k a = ("", false) := by
  induction a with
  | nil => rfl
  | cons x rest ih =>
    have hx : x.Key ≠ k := h x (List.mem_cons_self _ _)
    have hr : ∀ y ∈ rest, y.Key ≠ k := fun y hy => h y (List.mem_cons_of_mem _ hy)
    simp [getAttributeValue, hx, ih hr]

/-! ## Paths and in-place updates -/

theorem nodeAt_nil (p : Path) : nodeAt p Node.nil = Node.nil := by
  cases p with
  | nil => rfl
  | cons s p => cases s <;> rfl

theorem nodeAt_append (p q : Path) (d : Node) : nodeAt (p ++ q) d = nodeAt q (nodeAt p d) := by
  induction p generalizing d with
  | nil => rfl
  | cons s p ih =>
    cases s <;> cases d <;> simp [nodeAt, ih, nodeAt_nil]

theorem nodeAt_child (r : Path) (n : Node) :
    nodeAt (Step.FirstChild :: r) n = nodeAt r (firstChildAt [] n) := by
  cases n <;> simp [nodeAt, firstChildAt, nodeAt_nil]

theorem tagAt_descendant (f r : Path) (d : Node) :
    tagAt (f ++ Step.FirstChild :: r) d = tagAt r (firstChildAt f d) := by
  simp only [tagAt, firstChildAt, nodeAt_append, nodeAt_child]
  rfl

theorem modifyAt_nil (f : List Attribute → List Attribute) (p : Path) :
    modifyAt f p Node.nil = Node.nil := by
  cases p with
  | nil => rfl
  | cons s p => cases s <;> rfl

theorem shape_modifyAt (f : List Attribute → List Attribute) (p : Path) (d : Node) :
    shape (modifyAt f p d) = shape d := by
  induction d generalizing p with
  | nil => rw [modifyAt_nil]
  | leaf t s ns ih =>
    cases p with
    | nil => rfl
    | cons st p => cases st <;> simp [modifyAt, shape, ih]
  | element tag a fc ns ihc ihs =>
    cases p with
    | nil => rfl
    | cons st p => cases st <;> simp [modifyAt, shape, ihc, ihs]

theorem nodeAt_shape (q : Path) (d : Node) : nodeAt q (shape d) = shape (nodeAt q d) := by
  induction q generalizing d with
  | nil => rfl
  | cons s q ih => cases s <;> cases d <;> simp [nodeAt, shape, ih]

theorem matchAll_shape (tag : String) (d : Node) : matchAll tag (shape d) = matchAll tag d := by
  induction d with
  | nil => rfl
  | leaf t s ns ih => simp [matchAll, shape, ih]
  | element data a fc ns ihc ihs => simp [matchAll, shape, ihc, ihs]

theorem firstChildAt_shape (f : Path) (d : Node) :
    firstChildAt f (shape d) = shape (firstChildAt f d) := by
  unfold firstChildAt
  rw [nodeAt_shape]
  cases nodeAt f d <;> rfl

theorem Find_congr (tag : String) (d d2 : Node) (h : shape d = shape d2) :
    Find d tag = Find d2 tag := by
  unfold Find
  rw [← matchAll_shape tag d, ← matchAll_shape tag d2, h]

theorem FindIn_congr (tag : String) (f : Path) (d d2 : Node) (h : shape d = shape d2) :
    FindIn d f tag = FindIn d2 f tag := by
  unfold FindIn
  rw [← matchAll_shape tag (firstChildAt f d), ← matchAll_shape tag (firstChildAt f d2),
    ← firstChildAt_shape, ← firstChildAt_shape, h]

theorem tagAt_congr (q : Path) (d d2 : Node) (h : shape d = shape d2) :
    tagAt q d = tagAt q d2 := by
  have h1 : ∀ n : Node, (match n with
      | Node.element tag _ _ _ => some tag
      | _ => none) = (match shape n with
      | Node.element tag _ _ _ => some tag
      | _ => none) := by
    intro n; cases n <;> rfl
  unfold tagAt
  rw [h1 (nodeAt q d), h1 (nodeAt q d2), ← nodeAt_shape, ← nodeAt_shape, h]

theorem attrsAt_cons (s : Step) (q : Path) (d : Node) :
    attrsAt (s :: q) d = attrsAt q (nodeAt [s] d) := by
  have h := nodeAt_append [s] q d
  simp only [List.singleton_append] at h
  simp only [attrsAt, h]

theorem nodeAt_step_modifyAt_nil (f : List Attribute → List Attribute) (s : Step) (d : Node) :
    nodeAt [s] (modifyAt f [] d) = nodeAt [s] d := by
  cases s <;> cases d <;> rfl

theorem nodeAt_step_modifyAt_same (f : List Attribute → List Attribute) (s : Step) (p : Path)
    (d : Node) : nodeAt [s] (modifyAt f (s :: p) d) = modifyAt f p (nodeAt [s] d) := by
  cases s <;> cases d <;> simp [modifyAt, nodeAt, modifyAt_nil]

theorem nodeAt_step_modifyAt_ne (f : List Attribute → List Attribute) (s s2 : Step) (p : Path)
    (d : Node) (h : s2 ≠ s) : nodeAt [s] (modifyAt f (s2 :: p) d) = nodeAt [s] d := by
  cases s <;> cases s2 <;> cases d <;> simp_all [modifyAt, nodeAt]

theorem attrsAt_modifyAt (f : List Attribute → List Attribute) (p q : Path) (d : Node) :
    attrsAt q (modifyAt f p d) = if q = p then (attrsAt q d).map f else attrsAt q d := by
  induction q generalizing p d with
  | nil =>
    cases p with
    | nil => cases d <;> simp [modifyAt, attrsAt, nodeAt]
    | cons st p => cases st <;> cases d <;> simp [modifyAt, attrsAt, nodeAt]
  | cons s q ih =>
    rw [attrsAt_cons, attrsAt_cons]
    cases p with
    | nil => simp [nodeAt_step_modifyAt_nil]
    | cons st p =>
      by_cases hs : st = s
      · subst hs
        rw [nodeAt_step_modifyAt_same, ih]
        simp
      · rw [nodeAt_step_modifyAt_ne f s st p d hs]
        have : ¬ (s :: q = st :: p) := by
          intro h
          exact hs (List.cons.inj h).1.symm
        simp [this]

theorem modifyAt_congr (f g : List Attribute → List Attribute) (p : Path) (d : Node)
    (h : ∀ a, attrsAt p d = some a → f a = g a) : modifyAt f p d = modifyAt g p d := by
  induction p generalizing d with
  | nil =>
    cases d with
    | nil => rfl
    | leaf t s ns => rfl
    | element tag a fc ns =>
      have := h a (by simp [attrsAt, nodeAt])
      simp [modifyAt, this]
  | cons s p ih =>
    cases d with
    | nil => rw [modifyAt_nil, modifyAt_nil]
    | leaf t str ns =>
      cases s with
      | FirstChild => rfl
      | NextSibling =>
        simp only [modifyAt]
        rw [ih ns (fun a ha => h a (by simpa [attrsAt, nodeAt] using ha))]
    | element tag a fc ns =>
      cases s with
      | FirstChild =>
        simp only [modifyAt]
        rw [ih fc (fun a ha => h a (by simpa [attrsAt, nodeAt] using ha))]
      | NextSibling =>
        simp only [modifyAt]
        rw [ih ns (fun a ha => h a (by simpa [attrsAt, nodeAt] using ha))]

theorem modifyAt_id (p : Path) (d : Node) : modifyAt (fun a => a) p d = d := by
  induction p generalizing d with
  | nil => cases d <;> rfl
  | cons s p ih => cases s <;> cases d <;> simp [modifyAt, ih]

theorem modifyAt_fixed (f : List Attribute → List Attribute) (p : Path) (d : Node)
    (h : ∀ a, attrsAt p d = some a → f a = a) : modifyAt f p d = d := by
  rw [modifyAt_congr f (fun a => a) p d h, modifyAt_id]

/-! ## The rewrite is its list of edits -/

theorem modifyAt_cond (cond : String → Bool) (g : List Attribute → List Attribute)
    (k : String) (i : Path) (d : Node) :
    (if cond (AttrAt d i k).1 then modifyAt g i d else d) =
      modifyAt (fun a => if cond (getAttributeValue k a).1 then g a else a) i d := by
  cases ha : attrsAt i d with
  | none =>
    have h1 : modifyAt g i d = d := modifyAt_fixed g i d (by simp [ha])
    have h2 : modifyAt (fun a => if cond (getAttributeValue k a).1 then g a else a) i d = d :=
      modifyAt_fixed _ i d (by simp [ha])
    rw [h1, h2]
    simp
  | some a =>
    by_cases hc : cond (getAttributeValue k a).1 = true
    · have h2 : modifyAt (fun a => if cond (getAttributeValue k a).1 then g a else a) i d
          = modifyAt g i d :=
        modifyAt_congr _ g i d (by
          intro b hb
          rw [ha] at hb
          cases hb
          simp [hc])
      simp [AttrAt, ha, hc, h2]
    · have h2 : modifyAt (fun a => if cond (getAttributeValue k a).1 then g a else a) i d = d :=
        modifyAt_fixed _ i d (by
          intro b hb
          rw [ha] at hb
          cases hb
          simp [hc])
      simp [AttrAt, ha, hc, h2]

theorem foldl_modifyAt (g : List Attribute → List Attribute) (l : List Path) (d : Node) :
    l.foldl (fun d i => modifyAt g i d) d = applyEdits (l.map (fun i => (i, g))) d := by
  unfold applyEdits
  rw [List.foldl_map]

theorem applyEdits_cons (e : Edit) (es : List Edit) (d : Node) :
    applyEdits (e :: es) d = applyEdits es (modifyAt e.2 e.1 d) := rfl

theorem applyEdits_append (es es2 : List Edit) (d : Node) :
    applyEdits (es ++ es2) d = applyEdits es2 (applyEdits es d) := by
  unfold applyEdits
  rw [List.foldl_append]

theorem shape_applyEdits (es : List Edit) (d : Node) : shape (applyEdits es d) = shape d := by
  induction es generalizing d with
  | nil => rfl
  | cons e es ih => rw [applyEdits_cons, ih, shape_modifyAt]

theorem eachForm_eq (env : Env) (c pw : Bool) (d : Node) (f : Path) :
    eachForm env c pw d f = applyEdits (formEdits env c pw d f) d := by
  have hF : FindIn (modifyAt (SetAttr "action" "") f d) f "input" = FindIn d f "input" :=
    FindIn_congr "input" f _ _ (shape_modifyAt _ _ _)
  unfold eachForm formEdits
  simp only [hF, applyEdits_cons]
  cases c <;> cases pw
  · simp only [Bool.false_eq_true, if_false, foldl_modifyAt]
    congr
  · simp only [Bool.false_eq_true, if_false, foldl_modifyAt]
    congr
  · simp only [if_true, Bool.not_false, modifyAt_cond (fun t => env.EqualFold t "password"),
      foldl_modifyAt]
    congr
  · simp only [if_true, Bool.not_true, Bool.false_eq_true, if_false,
      modifyAt_cond (fun t => env.EqualFold t "password"), foldl_modifyAt]
    congr

theorem formEdits_congr (env : Env) (c pw : Bool) (d d2 : Node) (f : Path)
    (h : shape d = shape d2) : formEdits env c pw d f = formEdits env c pw d2 f := by
  unfold formEdits
  rw [FindIn_congr "input" f d d2 h]

theorem foldl_eachForm (env : Env) (c pw : Bool) (d : Node) (fs : List Path) (d2 : Node)
    (h : shape d2 = shape d) :
    fs.foldl (eachForm env c pw) d2 = applyEdits ((fs.map (formEdits env c pw d)).flatten) d2 := by
  induction fs generalizing d2 with
  | nil => rfl
  | cons f fs ih =>
    simp only [List.foldl_cons, List.map_cons, List.flatten_cons, applyEdits_append]
    rw [eachForm_eq, formEdits_congr env c pw d2 d f h]
    exact ih _ (by rw [shape_applyEdits, h])

theorem rewriteForms_eq (env : Env) (c pw : Bool) (d : Node) :
    rewriteForms env c pw d = applyEdits (edits env c pw d) d :=
  foldl_eachForm env c pw d (Find d "form") d rfl

theorem shape_rewriteForms (env : Env) (c pw : Bool) (d : Node) :
    shape (rewriteForms env c pw d) = shape d := by
  rw [rewriteForms_eq, shape_applyEdits]

theorem edits_congr (env : Env) (c pw : Bool) (d d2 : Node) (h : shape d = shape d2) :
    edits env c pw d = edits env c pw d2 := by
  unfold edits
  rw [Find_congr "form" d d2 h]
  congr 2
  funext f
  exact formEdits_congr env c pw d d2 f h

theorem editsAt_cons (q : Path) (e : Edit) (es : List Edit) (a : List Attribute) :
    editsAt q (e :: es) a = editsAt q es (if e.1 = q then e.2 a else a) := by
  unfold editsAt
  by_cases h : e.1 = q <;> simp [List.filter_cons, h]

theorem attrsAt_applyEdits (q : Path) (es : List Edit) (d : Node) :
    attrsAt q (applyEdits es d) = (attrsAt q d).map (editsAt q es) := by
  induction es generalizing d with
  | nil =>
    simp only [applyEdits, List.foldl_nil]
    cases attrsAt q d <;> simp [editsAt]
  | cons e es ih =>
    rw [applyEdits_cons, ih, attrsAt_modifyAt]
    by_cases h : q = e.1
    · cases hq : attrsAt q d <;> simp [h, editsAt_cons]
    · have h2 : ¬ e.1 = q := fun h3 => h h3.symm
      cases hq : attrsAt q d <;> simp [h, h2, editsAt_cons]

theorem editsAt_same (q : Path) (g : List Attribute → List Attribute) (es : List Edit)
    (h : ∀ e ∈ es, e.1 = q → e.2 = g) (a : List Attribute) :
    editsAt q es a = g^[(es.filter (fun e => decide (e.1 = q))).length] a := by
  induction es generalizing a with
  | nil => rfl
  | cons e es ih =>
    have hes : ∀ e2 ∈ es, e2.1 = q → e2.2 = g :=
      fun e2 h2 => h e2 (List.mem_cons_of_mem _ h2)
    rw [editsAt_cons, ih hes]
    by_cases he : e.1 = q
    · have hg : e.2 = g := h e (List.mem_cons_self _ _) he
      simp [List.filter_cons, he, hg]
    · simp [List.filter_cons, he]

/-! ## Which nodes are edited -/

theorem tagAt_nil_path (d : Node) :
    tagAt [] d = (match d with
      | Node.element tag _ _ _ => some tag
      | _ => none) := rfl

theorem tagAt_cons (s : Step) (q : Path) (d : Node) :
    tagAt (s :: q) d = tagAt q (nodeAt [s] d) := by
  have h := nodeAt_append [s] q d
  simp only [List.singleton_append] at h
  simp only [tagAt, h]

theorem mem_matchAll (tag : String) (q : Path) (d : Node) :
    q ∈ matchAll tag d ↔ tagAt q d = some tag := by
  induction d generalizing q with
  | nil => simp [matchAll, tagAt, nodeAt_nil]
  | leaf t s ns ih =>
    cases q with
    | nil => simp [matchAll, tagAt, nodeAt]
    | cons st q =>
      cases st
      · simp [matchAll, tagAt, nodeAt]
      · simp only [matchAll, List.mem_map, tagAt_cons, nodeAt]
        constructor
        · rintro ⟨r, hr, h⟩
          cases h
          exact (ih _).mp hr
        · intro h
          exact ⟨q, (ih q).mpr h, rfl⟩
  | element data a fc ns ihc ihs =>
    cases q with
    | nil =>
      by_cases h : data = tag <;> simp [matchAll, tagAt, nodeAt, h]
    | cons st q =>
      have hne : (st :: q) ∉ (if data = tag then [([] : Path)] else []) := by
        by_cases h : data = tag <;> simp [h]
      cases st
      · simp only [matchAll, List.mem_append, hne, false_or, List.mem_map, tagAt_cons, nodeAt]
        constructor
        · rintro (⟨r, hr, h⟩ | ⟨r, hr, h⟩)
          · cases h
            exact (ihc _).mp hr
          · cases h
        · intro h
          exact Or.inl ⟨q, (ihc q).mpr h, rfl⟩
      · simp only [matchAll, List.mem_append, hne, false_or, List.mem_map, tagAt_cons, nodeAt]
        constructor
        · rintro (⟨r, hr, h⟩ | ⟨r, hr, h⟩)
          · cases h
          · cases h
            exact (ihs _).mp hr
        · intro h
          exact Or.inr ⟨q, (ihs q).mpr h, rfl⟩

theorem mem_FindIn (tag : String) (f q : Path) (d : Node) :
    q ∈ FindIn d f tag ↔ ∃ r, q = f ++ Step.FirstChild :: r ∧ tagAt q d = some tag := by
  unfold FindIn
  simp only [List.mem_map, mem_matchAll]
  constructor
  · rintro ⟨r, hr, rfl⟩
    exact ⟨r, rfl, by rw [tagAt_descendant]; exact hr⟩
  · rintro ⟨r, rfl, hr⟩
    exact ⟨r, by rw [← tagAt_descendant]; exact hr, rfl⟩

theorem mem_edits (env : Env) (c pw : Bool) (d : Node) (e : Edit) :
    e ∈ edits env c pw d ↔
      (tagAt e.1 d = some "form" ∧ e.2 = SetAttr "action" "") ∨
      (∃ f r, tagAt f d = some "form" ∧ e.1 = f ++ Step.FirstChild :: r ∧
        tagAt e.1 d = some "input" ∧ e.2 = inputEdit env c pw) := by
  unfold edits Find formEdits
  simp only [List.mem_flatten, List.mem_map, mem_matchAll]
  constructor
  · rintro ⟨l, ⟨f, hf, rfl⟩, he⟩
    simp only [List.mem_cons, List.mem_map, mem_FindIn] at he
    rcases he with rfl | ⟨i, ⟨r, rfl, hi⟩, rfl⟩
    · exact Or.inl ⟨hf, rfl⟩
    · exact Or.inr ⟨f, r, hf, rfl, hi, rfl⟩
  · rintro (⟨hf, hg⟩ | ⟨f, r, hf, hq, hi, hg⟩)
    · refine ⟨_, ⟨e.1, hf, rfl⟩, ?_⟩
      simp only [List.mem_cons]
      left
      cases e
      simp_all
    · refine ⟨_, ⟨f, hf, rfl⟩, ?_⟩
      simp only [List.mem_cons, List.mem_map, mem_FindIn]
      right
      refine ⟨e.1, ⟨r, hq, hi⟩, ?_⟩
      cases e
      simp_all

/-- The slice of a form after the rewrite: `SetAttr("action", "")` run at least once. -/
theorem attrsAt_rewriteForms_form (env : Env) (c pw : Bool) (d : Node) (q : Path)
    (hq : tagAt q d = some "form") :
    ∃ n, attrsAt q (rewriteForms env c pw d) =
      (attrsAt q d).map (fun a => (SetAttr "action" "")^[n + 1] a) := by
  rw [rewriteForms_eq, attrsAt_applyEdits]
  have hsame : ∀ e ∈ edits env c pw d, e.1 = q → e.2 = SetAttr "action" "" := by
    intro e he heq
    rcases (mem_edits env c pw d e).mp he with ⟨_, hg⟩ | ⟨f, r, _, _, hi, _⟩
    · exact hg
    · rw [heq, hq] at hi
      simp at hi
  have hmem : (q, SetAttr "action" "") ∈ edits env c pw d :=
    (mem_edits env c pw d _).mpr (Or.inl ⟨hq, rfl⟩)
  have hpos : 0 < ((edits env c pw d).filter (fun e => decide (e.1 = q))).length := by
    apply List.length_pos_of_mem (a := (q, SetAttr "action" ""))
    simp [List.mem_filter, hmem]
  obtain ⟨n, hn⟩ := Nat.exists_eq_succ_of_ne_zero (Nat.pos_iff_ne_zero.mp hpos)
  refine ⟨n, ?_⟩
  congr 1
  funext a
  rw [editsAt_same q _ _ hsame, hn]

/-- The slice of an input after the rewrite: the input callback run once for every form
that the input is a descendant of. -/
theorem attrsAt_rewriteForms_input (env : Env) (c pw : Bool) (d : Node) (q : Path)
    (hq : tagAt q d = some "input") :
    ∃ n, attrsAt q (rewriteForms env c pw d) =
        (attrsAt q d).map (fun a => (inputEdit env c pw)^[n] a) ∧
      ((∃ f r, tagAt f d = some "form" ∧ q = f ++ Step.FirstChild :: r) → 0 < n) := by
  rw [rewriteForms_eq, attrsAt_applyEdits]
  have hsame : ∀ e ∈ edits env c pw d, e.1 = q → e.2 = inputEdit env c pw := by
    intro e he heq
    rcases (mem_edits env c pw d e).mp he with ⟨hf, _⟩ | ⟨f, r, _, _, _, hg⟩
    · rw [heq, hq] at hf
      simp at hf
    · exact hg
  refine ⟨((edits env c pw d).filter (fun e => decide (e.1 = q))).length, ?_, ?_⟩
  · congr 1
    funext a
    rw [editsAt_same q _ _ hsame]
  · rintro ⟨f, r, hf, hr⟩
    have hmem : (q, inputEdit env c pw) ∈ edits env c pw d :=
      (mem_edits env c pw d _).mpr (Or.inr ⟨f, r, hf, hr, hq, rfl⟩)
    apply List.length_pos_of_mem (a := (q, inputEdit env c pw))
    simp [List.mem_filter, hmem]

/-- A node that no edit is aimed at keeps its slice. -/
theorem attrsAt_rewriteForms_other (env : Env) (c pw : Bool) (d : Node) (q : Path)
    (hq : ∀ e ∈ edits env c pw d, e.1 ≠ q) :
    attrsAt q (rewriteForms env c pw d) = attrsAt q d := by
  rw [rewriteForms_eq, attrsAt_applyEdits]
  have : (edits env c pw d).filter (fun e => decide (e.1 = q)) = [] := by
    rw [List.filter_eq_nil_iff]
    intro e he
    simpa using hq e he
  cases attrsAt q d <;> simp [editsAt, this]

theorem tagAt_rewriteForms (env : Env) (c pw : Bool) (d : Node) (q : Path) :
    tagAt q (rewriteForms env c pw d) = tagAt q d :=
  tagAt_congr q _ _ (shape_rewriteForms env c pw d)

/-! ## Validation -/

theorem Validate_flags (env : Env) (p : Page) :
    (p.Validate env).1.CapturePasswords = p.CapturePasswords ∧
    (p.Validate env).1.CaptureCredentials =
      (p.CaptureCredentials || (p.CapturePasswords && decide (p.Name ≠ ""))) := by
  unfold Page.Validate Page.parseHTML
  by_cases hn : p.Name = ""
  · simp [hn]
  · simp only [hn, if_false]
    cases hc : p.CaptureCredentials <;> cases hp : p.CapturePasswords <;>
      simp <;> (split <;> [skip; split]) <;> (try split) <;> simp [hc, hp, hn]

/-- C1: when `Page.Validate` returns no error, `CapturePasswords` implies
`CaptureCredentials` on the page afterwards, whatever flags the caller passed in. -/
theorem Validate_capturePasswords_implies_captureCredentials (env : Env) (p : Page)
    (hok : (p.Validate env).2 = none)
    (hpw : (p.Validate env).1.CapturePasswords = true) :
    (p.Validate env).1.CaptureCredentials = true := by
  have hname : p.Name ≠ "" := by
    intro h
    simp [Page.Validate, h] at hok
  obtain ⟨h1, h2⟩ := Validate_flags env p
  rw [h2]
  rw [h1] at hpw
  simp [hpw, hname]

theorem Validate_capturePasswords_implies_captureCredentials_witness :
    (samplePage.Validate sampleEnv).2 = none ∧
    (samplePage.Validate sampleEnv).1.CapturePasswords = true ∧
    samplePage.CaptureCredentials = false ∧
    (samplePage.Validate sampleEnv).1.CaptureCredentials = true :=
  ⟨by decide, by decide, by decide,
    Validate_capturePasswords_implies_captureCredentials sampleEnv samplePage
      (by decide) (by decide)⟩

/-- C2: with or without an error, `Page.Validate` never turns `CaptureCredentials` from
true to false, never changes `CapturePasswords`, and leaves `CaptureCredentials` as the
caller gave it when `CapturePasswords` is false on entry. -/
theorem Validate_flags_one_way (env : Env) (p : Page) :
    (p.CaptureCredentials = true → (p.Validate env).1.CaptureCredentials = true) ∧
    (p.Validate env).1.CapturePasswords = p.CapturePasswords ∧
    (p.CapturePasswords = false →
      (p.Validate env).1.CaptureCredentials = p.CaptureCredentials) := by
  obtain ⟨h1, h2⟩ := Validate_flags env p
  refine ⟨?_, h1, ?_⟩
  · intro hc
    rw [h2, hc]
    rfl
  · intro hp
    rw [h2, hp]
    simp

/-- C9: for a page whose `Name` is empty, `Page.Validate` returns
`ErrPageNameNotSpecified` and the page is left exactly as it was, for every parser,
renderer and template validator: the markup transform is not run. -/
theorem Validate_empty_name (env : Env) (p : Page) (hname : p.Name = "") :
    p.Validate env = (p, some Error.ErrPageNameNotSpecified) := by
  simp [Page.Validate, hname]

theorem Validate_empty_name_witness :
    namelessPage.Name = "" ∧ namelessPage.CapturePasswords = true ∧
    namelessPage.Validate sampleEnv = (namelessPage, some Error.ErrPageNameNotSpecified) :=
  ⟨rfl, rfl, Validate_empty_name sampleEnv namelessPage rfl⟩

/-- C10: for a page with a non-empty `Name` whose HTML the template validator rejects
with `err`, `Page.Validate` returns exactly `err`, whatever `RedirectURL` holds, and the
page's HTML is not rewritten. -/
theorem Validate_html_template_error (env : Env) (p : Page) (err : Error)
    (hname : p.Name ≠ "") (hhtml : env.ValidateTemplate p.HTML = some err) :
    (p.Validate env).2 = some err ∧ (p.Validate env).1.HTML = p.HTML ∧
    ∀ url : String, (({ p with RedirectURL := url } : Page).Validate env).2 = some err := by
  have key : ∀ q : Page, q.Name ≠ "" → env.ValidateTemplate q.HTML = some err →
      (q.Validate env).2 = some err ∧ (q.Validate env).1.HTML = q.HTML := by
    intro q hq hh
    unfold Page.Validate
    simp only [hq, if_false]
    by_cases hf : (q.CapturePasswords && !q.CaptureCredentials) = true
    · simp [hf, hh]
    · simp [hf, hh]
  exact ⟨(key p hname hhtml).1, (key p hname hhtml).2,
    fun url => (key { p with RedirectURL := url } hname hhtml).1⟩

theorem Validate_html_template_error_witness :
    badTemplatePage.Name ≠ "" ∧
    sampleEnv.ValidateTemplate badTemplatePage.HTML =
      some (Error.other "template: unexpected EOF") ∧
    (badTemplatePage.Validate sampleEnv).2 = some (Error.other "template: unexpected EOF") ∧
    (badTemplatePage.Validate sampleEnv).1.HTML = badTemplatePage.HTML :=
  ⟨by decide, by decide,
    (Validate_html_template_error sampleEnv badTemplatePage
      (Error.other "template: unexpected EOF") (by decide) (by decide)).1,
    (Validate_html_template_error sampleEnv badTemplatePage
      (Error.other "template: unexpected EOF") (by decide) (by decide)).2.1⟩

/-! ## The input callback -/

theorem inputEdit_idem (env : Env) (c pw : Bool) (a : List Attribute)
    (h : a.countP (fun x => decide (x.Key = "name")) ≤ 1) :
    inputEdit env c pw (inputEdit env c pw a) = inputEdit env c pw a := by
  cases c <;> cases pw
  · simp [inputEdit, RemoveAttr_idem "name" a h]
  · simp [inputEdit, RemoveAttr_idem "name" a h]
  · by_cases ht : env.EqualFold (getAttributeValue "type" a).1 "password" = true
    · simp only [inputEdit, if_true, Bool.not_false, ht]
      split
      · exact RemoveAttr_idem "name" a h
      · rfl
    · simp [inputEdit, ht]
  · by_cases ht : env.EqualFold (getAttributeValue "type" a).1 "password" = true
    · simp [inputEdit, ht, getAttributeValue_SetAttr_ne "name" "type", SetAttr_idem]
    · simp [inputEdit, ht]

theorem iterate_of_idem {α : Type} (g : α → α) (a : α) (h : g (g a) = g a) (n : Nat) :
    g^[n + 1] a = g a := by
  rw [Function.iterate_succ_apply]
  exact Function.iterate_fixed h n

theorem inputEdit_iterate_password (env : Env) (a : List Attribute)
    (ht : env.EqualFold (getAttributeValue "type" a).1 "password" = true) (n : Nat) :
    getAttributeValue "type" ((inputEdit env true true)^[n] a) = getAttributeValue "type" a ∧
    (0 < n → getAttributeValue "name" ((inputEdit env true true)^[n] a) = ("password", true)) := by
  induction n with
  | zero => simp
  | succ n ih =>
    rw [Function.iterate_succ_apply']
    have hpw : env.EqualFold
        (getAttributeValue "type" ((inputEdit env true true)^[n] a)).1 "password" = true := by
      rw [ih.1]; exact ht
    have hstep : inputEdit env true true ((inputEdit env true true)^[n] a) =
        SetAttr "name" "password" ((inputEdit env true true)^[n] a) := by
      simp [inputEdit, hpw]
    rw [hstep]
    refine ⟨?_, fun _ => getAttributeValue_SetAttr_same _ _ _⟩
    rw [getAttributeValue_SetAttr_ne "name" "type" "password" _ (by decide), ih.1]

theorem inputEdit_not_password (env : Env) (pw : Bool) (a : List Attribute)
    (ht : env.EqualFold (getAttributeValue "type" a).1 "password" = false) :
    inputEdit env true pw a = a := by
  cases pw <;> simp [inputEdit, ht]

theorem AttrAt_of_attrsAt (d : Node) (q : Path) (k : String) (a : List Attribute)
    (h : attrsAt q d = some a) : AttrAt d q k = getAttributeValue k a := by
  simp [AttrAt, h]

theorem attrsAt_isSome_of_tagAt (d : Node) (q : Path) (tag : String)
    (h : tagAt q d = some tag) : ∃ a, attrsAt q d = some a := by
  unfold tagAt at h
  unfold attrsAt
  cases hn : nodeAt q d with
  | nil => simp [hn] at h
  | leaf t s ns => simp [hn] at h
  | element data a fc ns => exact ⟨a, rfl⟩

/-! ## Claims on the form rewrite -/

/-- The tree rewrite leaves no `name` on an input inside a form when credentials are not
captured, provided the input had at most one `name` attribute. -/
theorem rewriteForms_no_name_of_single (env : Env) (pw : Bool) (d : Node) (q : Path)
    (a : List Attribute) (hin : InsideForm d q) (hq : tagAt q d = some "input")
    (ha : attrsAt q d = some a) (h1 : a.countP (fun x => decide (x.Key = "name")) ≤ 1) :
    AttrAt (rewriteForms env false pw d) q "name" = ("", false) := by
  obtain ⟨n, hn, hpos⟩ := attrsAt_rewriteForms_input env false pw d q hq
  obtain ⟨m, rfl⟩ := Nat.exists_eq_succ_of_ne_zero (Nat.pos_iff_ne_zero.mp (hpos hin))
  rw [ha] at hn
  simp only [Option.map_some'] at hn
  rw [AttrAt_of_attrsAt _ _ _ _ hn, iterate_of_idem _ _ (inputEdit_idem env false pw a h1)]
  have : inputEdit env false pw a = RemoveAttr "name" a := by simp [inputEdit]
  rw [this]
  exact getAttributeValue_of_absent _ _ (RemoveAttr_absent_of_countP "name" a h1)

/-- The tree rewrite leaves no `name` on a password input inside a form when credentials
are captured and passwords are not, provided the input had at most one `name`. -/
theorem rewriteForms_password_no_name_of_single (env : Env) (d : Node) (q : Path)
    (a : List Attribute) (hin : InsideForm d q) (hq : tagAt q d = some "input")
    (ha : attrsAt q d = some a) (h1 : a.countP (fun x => decide (x.Key = "name")) ≤ 1)
    (ht : env.EqualFold (getAttributeValue "type" a).1 "password" = true) :
    AttrAt (rewriteForms env true false d) q "name" = ("", false) := by
  obtain ⟨n, hn, hpos⟩ := attrsAt_rewriteForms_input env true false d q hq
  obtain ⟨m, rfl⟩ := Nat.exists_eq_succ_of_ne_zero (Nat.pos_iff_ne_zero.mp (hpos hin))
  rw [ha] at hn
  simp only [Option.map_some'] at hn
  rw [AttrAt_of_attrsAt _ _ _ _ hn, iterate_of_idem _ _ (inputEdit_idem env true false a h1)]
  have : inputEdit env true false a = RemoveAttr "name" a := by simp [inputEdit, ht]
  rw [this]
  exact getAttributeValue_of_absent _ _ (RemoveAttr_absent_of_countP "name" a h1)

theorem singleName_at (d : Node) (q : Path) (a : List Attribute) (h : singleName d = true)
    (hq : tagAt q d = some "input") (ha : attrsAt q d = some a) :
    a.countP (fun x => decide (x.Key = "name")) ≤ 1 := by
  induction q generalizing d with
  | nil =>
    cases d with
    | nil => simp [tagAt, nodeAt] at hq
    | leaf t s ns => simp [tagAt, nodeAt] at hq
    | element tag b fc ns =>
      simp only [tagAt, nodeAt, Option.some.injEq] at hq
      simp only [attrsAt, nodeAt, Option.some.injEq] at ha
      subst hq ha
      simp [singleName] at h
      exact h.1.1
  | cons s q ih =>
    rw [tagAt_cons] at hq
    rw [attrsAt_cons] at ha
    refine ih (nodeAt [s] d) ?_ hq ha
    cases s <;> cases d <;> simp_all [singleName, nodeAt]

theorem applyEdits_fixed (es : List Edit) (d : Node)
    (h : ∀ e ∈ es, modifyAt e.2 e.1 d = d) : applyEdits es d = d := by
  induction es with
  | nil => rfl
  | cons e es ih =>
    rw [applyEdits_cons, h e (List.mem_cons_self _ _)]
    exact ih (fun e2 h2 => h e2 (List.mem_cons_of_mem _ h2))

theorem inputEdit_idem_both (env : Env) (a : List Attribute) :
    inputEdit env true true (inputEdit env true true a) = inputEdit env true true a := by
  by_cases ht : env.EqualFold (getAttributeValue "type" a).1 "password" = true
  · simp [inputEdit, ht, getAttributeValue_SetAttr_ne "name" "type", SetAttr_idem]
  · simp [inputEdit, ht]

theorem rewriteForms_idempotent_of_single (env : Env) (c pw : Bool) (d : Node)
    (h : (c = true ∧ pw = true) ∨ singleName d = true) :
    rewriteForms env c pw (rewriteForms env c pw d) = rewriteForms env c pw d := by
  rw [rewriteForms_eq env c pw (rewriteForms env c pw d),
    edits_congr env c pw _ d (shape_rewriteForms env c pw d)]
  apply applyEdits_fixed
  intro e he
  apply modifyAt_fixed
  intro b hb
  rcases (mem_edits env c pw d e).mp he with ⟨hf, hg⟩ | ⟨f, r, hf, hr, hi, hg⟩
  · obtain ⟨n, hn⟩ := attrsAt_rewriteForms_form env c pw d e.1 hf
    obtain ⟨a, ha⟩ := attrsAt_isSome_of_tagAt d e.1 _ hf
    rw [hn, ha] at hb
    simp only [Option.map_some', Option.some.injEq] at hb
    rw [hg, ← hb, Function.iterate_succ_apply', SetAttr_idem]
  · obtain ⟨n, hn, hpos⟩ := attrsAt_rewriteForms_input env c pw d e.1 hi
    obtain ⟨m, rfl⟩ := Nat.exists_eq_succ_of_ne_zero
      (Nat.pos_iff_ne_zero.mp (hpos ⟨f, r, hf, hr⟩))
    obtain ⟨a, ha⟩ := attrsAt_isSome_of_tagAt d e.1 _ hi
    rw [hn, ha] at hb
    simp only [Option.map_some', Option.some.injEq] at hb
    have hid : inputEdit env c pw (inputEdit env c pw a) = inputEdit env c pw a := by
      rcases h with ⟨hc, hp⟩ | h
      · subst hc hp
        exact inputEdit_idem_both env a
      · exact inputEdit_idem env c pw a (singleName_at d e.1 a h hi ha)
    rw [iterate_of_idem _ _ hid] at hb
    rw [hg, ← hb, hid]

/-- C4: for every document and every flag combination, every `<form>` element of the
rewritten tree has an `action` attribute whose value is the empty string. -/
theorem parseHTML_form_action_empty (env : Env) (c pw : Bool) (d : Node) (q : Path)
    (hq : tagAt q (rewriteForms env c pw d) = some "form") :
    AttrAt (rewriteForms env c pw d) q "action" = ("", true) := by
  rw [tagAt_rewriteForms] at hq
  obtain ⟨n, hn⟩ := attrsAt_rewriteForms_form env c pw d q hq
  obtain ⟨a, ha⟩ := attrsAt_isSome_of_tagAt d q _ hq
  rw [ha] at hn
  simp only [Option.map_some'] at hn
  rw [AttrAt_of_attrsAt _ _ _ _ hn, Function.iterate_succ_apply',
    getAttributeValue_SetAttr_same]

/-- C7: with both flags true, every `<input>` inside a `<form>` whose `type` folds to
`"password"` (read before or after the rewrite) has, after the rewrite, a `name`
attribute with the value `"password"`, whatever `name` it had before. -/
theorem parseHTML_password_input_named_password (env : Env) (d : Node) (q : Path)
    (hin : InsideForm d q) (hq : tagAt q d = some "input")
    (ht : env.EqualFold (AttrAt d q "type").1 "password" = true ∨
      env.EqualFold (AttrAt (rewriteForms env true true d) q "type").1 "password" = true) :
    AttrAt (rewriteForms env true true d) q "name" = ("password", true) := by
  obtain ⟨n, hn, hpos⟩ := attrsAt_rewriteForms_input env true true d q hq
  obtain ⟨a, ha⟩ := attrsAt_isSome_of_tagAt d q _ hq
  rw [ha] at hn
  simp only [Option.map_some'] at hn
  have hbefore : env.EqualFold (getAttributeValue "type" a).1 "password" = true := by
    rcases ht with ht | ht
    · rwa [AttrAt_of_attrsAt _ _ _ _ ha] at ht
    · rw [AttrAt_of_attrsAt _ _ _ _ hn] at ht
      by_contra hne
      have hne2 : env.EqualFold (getAttributeValue "type" a).1 "password" = false := by
        simpa using hne
      have hfix : inputEdit env true true a = a := inputEdit_not_password env true a hne2
      rw [Function.iterate_fixed hfix n] at ht
      exact hne ht
  rw [AttrAt_of_attrsAt _ _ _ _ hn]
  exact (inputEdit_iterate_password env a hbefore n).2 (hpos hin)

/-- C8: with `CaptureCredentials` true and either value of `CapturePasswords`, an
`<input>` whose `type` is absent or does not fold to `"password"` keeps its attribute
slice exactly.  An absent `type` is read as the empty string, which does not fold to
`"password"`. -/
theorem parseHTML_other_input_untouched (env : Env) (pw : Bool) (d : Node) (q : Path)
    (henv : env.EqualFold "" "password" = false)
    (hq : tagAt q d = some "input")
    (ht : (AttrAt d q "type").2 = false ∨
      env.EqualFold (AttrAt d q "type").1 "password" = false) :
    attrsAt q (rewriteForms env true pw d) = attrsAt q d := by
  obtain ⟨n, hn, _⟩ := attrsAt_rewriteForms_input env true pw d q hq
  obtain ⟨a, ha⟩ := attrsAt_isSome_of_tagAt d q _ hq
  have hnot : env.EqualFold (getAttributeValue "type" a).1 "password" = false := by
    rw [AttrAt_of_attrsAt _ _ _ _ ha] at ht
    rcases ht with ht | ht
    · have h0 : ∀ l : List Attribute, (getAttributeValue "type" l).2 = false →
          (getAttributeValue "type" l).1 = "" := by
        intro l
        induction l with
        | nil => intro _; rfl
        | cons x rest ih =>
          by_cases hx : x.Key = "type" <;> simp [getAttributeValue, hx]
          exact ih
      rw [h0 a ht]
      exact henv
    · exact ht
  rw [hn, ha]
  simp only [Option.map_some']
  rw [Function.iterate_fixed (inputEdit_not_password env pw a hnot) n]

/-- On the tree of `<form><input name="a" name="b"></form>` with `CaptureCredentials`
false, the first rewrite removes one `name` and the second rewrite removes the other, so
rewriting the tree twice differs from rewriting it once. -/
theorem parseHTML_rewrite_not_idempotent_on_duplicate_names :
    rewriteForms sampleEnv false false (rewriteForms sampleEnv false false dupNameDoc) ≠
      rewriteForms sampleEnv false false dupNameDoc := by
  decide

theorem parseHTML_form_action_empty_witness :
    tagAt bodyFirst (rewriteForms sampleEnv false false sampleDoc) = some "form" ∧
    AttrAt sampleDoc bodyFirst "action" = ("", false) ∧
    AttrAt (rewriteForms sampleEnv false false sampleDoc) bodyFirst "action" = ("", true) :=
  ⟨by decide, by decide,
    parseHTML_form_action_empty sampleEnv false false sampleDoc bodyFirst (by decide)⟩

/-- C5: on the tree of `<form><input name="a" name="b"></form>` with `CaptureCredentials`
false, the input of the form still has a `name` attribute after the rewrite: the
callback removed the first `name` only. -/
theorem parseHTML_duplicate_name_kept_without_credentials :
    tagAt bodyFirst dupNameDoc = some "form" ∧
    tagAt bodyFirstChild (rewriteForms sampleEnv false false dupNameDoc) = some "input" ∧
    AttrAt (rewriteForms sampleEnv false false dupNameDoc) bodyFirstChild "name"
      = ("b", true) := by
  decide

/-- C6: on the tree of `<form><input type="PASSWORD" name="a" name="b"></form>` with
`CaptureCredentials` true and `CapturePasswords` false, the password input still has a
`name` attribute after the rewrite: the callback removed the first `name` only. -/
theorem parseHTML_duplicate_name_kept_on_password_input :
    tagAt bodyFirst dupNamePasswordDoc = some "form" ∧
    tagAt bodyFirstChild (rewriteForms sampleEnv true false dupNamePasswordDoc)
      = some "input" ∧
    sampleEnv.EqualFold
      (AttrAt (rewriteForms sampleEnv true false dupNamePasswordDoc)
        bodyFirstChild "type").1 "password" = true ∧
    AttrAt (rewriteForms sampleEnv true false dupNamePasswordDoc) bodyFirstChild "name"
      = ("b", true) := by
  decide

theorem parseHTML_password_input_named_password_witness :
    InsideForm sampleDoc bodyFirstChild ∧
    tagAt bodyFirstChild sampleDoc = some "input" ∧
    AttrAt sampleDoc bodyFirstChild "name" = ("pw", true) ∧
    AttrAt (rewriteForms sampleEnv true true sampleDoc) bodyFirstChild "name"
      = ("password", true) :=
  ⟨⟨bodyFirst, [], by decide, rfl⟩, by decide, by decide,
    parseHTML_password_input_named_password sampleEnv sampleDoc bodyFirstChild
      ⟨bodyFirst, [], by decide, rfl⟩ (by decide) (Or.inl (by decide))⟩

theorem parseHTML_other_input_untouched_witness :
    sampleEnv.EqualFold "" "password" = false ∧
    tagAt bodySecondChild sampleDoc = some "input" ∧
    attrsAt bodySecondChild (rewriteForms sampleEnv true false sampleDoc)
      = some [attr "type" "text", attr "name" "u"] :=
  ⟨by decide, by decide,
    parseHTML_other_input_untouched sampleEnv false sampleDoc
      bodySecondChild (by decide) (by decide) (Or.inr (by decide))⟩

/-! ## Validation and the markup step -/

theorem Validate_of_name (env : Env) (p : Page) (h : p.Name ≠ "") :
    p.Validate env =
      match env.ValidateTemplate p.HTML with
      | some err => (normalizeFlags p, some err)
      | none =>
        match env.ValidateTemplate p.RedirectURL with
        | some err => (normalizeFlags p, some err)
        | none => (normalizeFlags p).parseHTML env := by
  have hn : (if (p.CapturePasswords && !p.CaptureCredentials) = true then
      { p with CaptureCredentials := true } else p) = normalizeFlags p := by
    cases p with
    | mk i u n h c pw r m => cases c <;> cases pw <;> rfl
  unfold Page.Validate
  simp only [h, if_false, hn]
  rfl

theorem parseHTML_fields (env : Env) (p : Page) :
    (p.parseHTML env).1 = { p with HTML := (p.parseHTML env).1.HTML } := by
  unfold Page.parseHTML
  split <;> rfl

/-- C11 (as stated) fails: with a serializer that returns an error, `Validate` returns the
error and the page's HTML is the empty string that came with it, not the original. -/
theorem Validate_render_error_overwrites_html :
    (samplePage.Validate failingRenderEnv).2 = some (Error.other "html: cannot render node") ∧
    (samplePage.Validate failingRenderEnv).1.HTML = "" ∧
    samplePage.HTML ≠ "" := by
  decide

/-- C11 (as amended): when the markup step is reached and parsing fails, `Validate`
returns the parser's error and the HTML is the original string; when serializing fails,
`Validate` returns the serializer's error and the HTML is the string that the serializer
returned with it. -/
theorem Validate_markup_error (env : Env) (p : Page) (hname : p.Name ≠ "")
    (hhtml : env.ValidateTemplate p.HTML = none)
    (hurl : env.ValidateTemplate p.RedirectURL = none) :
    (∀ err, env.NewDocumentFromReader p.HTML = Except.error err →
      (p.Validate env).2 = some err ∧ (p.Validate env).1.HTML = p.HTML) ∧
    (∀ d err, env.NewDocumentFromReader p.HTML = Except.ok d →
      (env.Html (rewriteForms env (p.CaptureCredentials || p.CapturePasswords)
        p.CapturePasswords d)).2 = some err →
      (p.Validate env).2 = some err ∧
      (p.Validate env).1.HTML =
        (env.Html (rewriteForms env (p.CaptureCredentials || p.CapturePasswords)
          p.CapturePasswords d)).1) := by
  rw [Validate_of_name env p hname]
  simp only [hhtml, hurl]
  constructor
  · intro err herr
    simp [Page.parseHTML, normalizeFlags, herr]
  · intro d err hd herr
    simp [Page.parseHTML, normalizeFlags, hd, herr]

theorem Validate_markup_error_witness :
    samplePage.Name ≠ "" ∧
    failingParseEnv.NewDocumentFromReader samplePage.HTML
      = Except.error (Error.other "unexpected EOF") ∧
    (samplePage.Validate failingParseEnv).2 = some (Error.other "unexpected EOF") ∧
    (samplePage.Validate failingParseEnv).1.HTML = samplePage.HTML :=
  ⟨by decide, rfl,
    (Validate_markup_error failingParseEnv samplePage (by decide) (by decide) (by decide)).1
      (Error.other "unexpected EOF") rfl⟩

/-- C12: `Validate` returns no error exactly when the name is non-empty, both template
checks pass and the rewrite of the HTML with the normalized flags succeeds; the page's
HTML is then the result of that rewrite. -/
theorem Validate_success_iff (env : Env) (p : Page) :
    ((p.Validate env).2 = none ↔
      p.Name ≠ "" ∧ env.ValidateTemplate p.HTML = none ∧
      env.ValidateTemplate p.RedirectURL = none ∧
      ∃ s, Rewrite env p.HTML (p.CaptureCredentials || p.CapturePasswords)
        p.CapturePasswords = Except.ok s) ∧
    ((p.Validate env).2 = none →
      Rewrite env p.HTML (p.CaptureCredentials || p.CapturePasswords) p.CapturePasswords
        = Except.ok (p.Validate env).1.HTML) := by
  by_cases hname : p.Name = ""
  · simp [Page.Validate, hname]
  · rw [Validate_of_name env p hname]
    cases hh : env.ValidateTemplate p.HTML with
    | some e => simp [hname]
    | none =>
      cases hu : env.ValidateTemplate p.RedirectURL with
      | some e => simp [hname]
      | none =>
        simp only [Page.parseHTML, Rewrite, normalizeFlags]
        cases hd : env.NewDocumentFromReader p.HTML with
        | error e => simp [hname]
        | ok d =>
          cases hr : (env.Html (rewriteForms env (p.CaptureCredentials || p.CapturePasswords)
              p.CapturePasswords d)).2 with
          | some e => simp [hname, hr]
          | none => simp [hname, hr]

theorem Validate_success_iff_witness :
    (samplePage.Validate sampleEnv).2 = none ∧
    Rewrite sampleEnv samplePage.HTML true true = Except.ok "<form action=\"\"></form>" ∧
    (samplePage.Validate sampleEnv).1.HTML = "<form action=\"\"></form>" :=
  ⟨by decide, (Validate_success_iff sampleEnv samplePage).2 (by decide), by decide⟩

/-- C13: whatever the outcome, `Validate` leaves `Id`, `UserId`, `Name`,
`CapturePasswords`, `RedirectURL` and `ModifiedDate` as they were; only
`CaptureCredentials` and `HTML` can differ. -/
theorem Validate_frame (env : Env) (p : Page) :
    p.Validate env =
      ({ p with CaptureCredentials := (p.Validate env).1.CaptureCredentials,
                HTML := (p.Validate env).1.HTML }, (p.Validate env).2) ∧
    (p.Validate env).1.Id = p.Id ∧ (p.Validate env).1.UserId = p.UserId ∧
    (p.Validate env).1.Name = p.Name ∧
    (p.Validate env).1.CapturePasswords = p.CapturePasswords ∧
    (p.Validate env).1.RedirectURL = p.RedirectURL ∧
    (p.Validate env).1.ModifiedDate = p.ModifiedDate := by
  have key : (p.Validate env).1 =
      { p with CaptureCredentials := (p.Validate env).1.CaptureCredentials,
               HTML := (p.Validate env).1.HTML } := by
    by_cases hname : p.Name = ""
    · have h1 : p.Validate env = (p, some Error.ErrPageNameNotSpecified) := by
        simp [Page.Validate, hname]
      rw [h1]
    · rw [Validate_of_name env p hname]
      cases hh : env.ValidateTemplate p.HTML with
      | some e => simp [normalizeFlags]
      | none =>
        cases hu : env.ValidateTemplate p.RedirectURL with
        | some e => simp [normalizeFlags]
        | none =>
          simp only []
          rw [parseHTML_fields env (normalizeFlags p)]
          simp [normalizeFlags]
  refine ⟨?_, ?_, ?_, ?_, ?_, ?_, ?_⟩
  · exact Prod.ext key rfl
  all_goals rw [key]

/-! ## Forms without inputs -/

/-- C14 (as stated) fails: in `<form><div><form action="/login"></form></div></form>` the
outer form has no input descendants, yet its descendant, the inner form, has its
`action` changed by the rewrite. -/
theorem parseHTML_nested_form_changed :
    tagAt bodyFirst nestedFormDoc = some "form" ∧
    FindIn nestedFormDoc bodyFirst "input" = [] ∧
    attrsAt (bodyFirst ++ [Step.FirstChild, Step.FirstChild]) nestedFormDoc
      = some [attr "action" "/login"] ∧
    attrsAt (bodyFirst ++ [Step.FirstChild, Step.FirstChild])
      (rewriteForms sampleEnv true true nestedFormDoc) = some [attr "action" ""] := by
  decide

/-- C14 (as amended): for a form without input descendants and any flags, the rewrite
keeps the tree structure, turns the form's attribute slice into the same slice with
`action` set to the empty string, and below the form changes only the forms nested in
it, in the same way; every other descendant keeps its attribute slice. -/
theorem parseHTML_form_without_inputs (env : Env) (c pw : Bool) (d : Node) (f : Path)
    (hf : tagAt f d = some "form") (hno : FindIn d f "input" = []) :
    shape (rewriteForms env c pw d) = shape d ∧
    attrsAt f (rewriteForms env c pw d) = (attrsAt f d).map (SetAttr "action" "") ∧
    ∀ r : Path,
      attrsAt (f ++ Step.FirstChild :: r) (rewriteForms env c pw d) =
        if tagAt (f ++ Step.FirstChild :: r) d = some "form" then
          (attrsAt (f ++ Step.FirstChild :: r) d).map (SetAttr "action" "")
        else attrsAt (f ++ Step.FirstChild :: r) d := by
  have hform : ∀ q : Path, tagAt q d = some "form" →
      attrsAt q (rewriteForms env c pw d) = (attrsAt q d).map (SetAttr "action" "") := by
    intro q hq
    obtain ⟨n, hn⟩ := attrsAt_rewriteForms_form env c pw d q hq
    rw [hn]
    congr 1
    funext a
    exact iterate_of_idem _ a (SetAttr_idem _ _ a) n
  refine ⟨shape_rewriteForms env c pw d, hform f hf, ?_⟩
  intro r
  by_cases hq : tagAt (f ++ Step.FirstChild :: r) d = some "form"
  · rw [if_pos hq]
    exact hform _ hq
  · rw [if_neg hq]
    apply attrsAt_rewriteForms_other
    intro e he heq
    rcases (mem_edits env c pw d e).mp he with ⟨h1, _⟩ | ⟨_, _, _, _, hi, _⟩
    · rw [heq] at h1
      exact hq h1
    · rw [heq] at hi
      have hmem : (f ++ Step.FirstChild :: r) ∈ FindIn d f "input" :=
        (mem_FindIn "input" f _ d).mpr ⟨r, rfl, hi⟩
      rw [hno] at hmem
      simp at hmem

theorem parseHTML_form_without_inputs_witness :
    tagAt bodyFirst noInputDoc = some "form" ∧
    FindIn noInputDoc bodyFirst "input" = [] ∧
    attrsAt bodyFirst (rewriteForms sampleEnv false false noInputDoc)
      = some [attr "id" "f", attr "action" ""] ∧
    attrsAt bodyFirstChild (rewriteForms sampleEnv false false noInputDoc)
      = some [attr "class" "x"] :=
  ⟨by decide, by decide,
    (parseHTML_form_without_inputs sampleEnv false false noInputDoc bodyFirst
      (by decide) (by decide)).2.1,
    (parseHTML_form_without_inputs sampleEnv false false noInputDoc bodyFirst
      (by decide) (by decide)).2.2 []⟩

/-! ## Lookups and deletes in the document store -/

/-- C15: with no page named `Missing` in the store, `GetPageByName` returns the empty page
together with a non-nil error built by `fmt.Errorf`, not a nil error. -/
theorem GetPageByName_missing_returns_error :
    GetPageByName [samplePage] "Missing" 1 =
      (emptyPage, some (Error.other "no document found with name %!d(string=Missing)")) := by
  decide

/-- C16: with no page of id 7 owned by user 1 in the store, `DeletePage` leaves the store
as it is and returns a nil error. -/
theorem DeletePage_missing_returns_nil :
    DeletePage [samplePage] 7 1 = ([samplePage], none) := by
  decide

/-- C17: the store holds a page with id 0 that belongs to user 1; `GetPage` called for
user 2 returns that page without error. -/
theorem GetPage_ignores_user :
    samplePage.Id = 0 ∧ samplePage.UserId = 1 ∧
    GetPage [samplePage] 0 2 = (samplePage, none) := by
  decide

/-- C18: the store holds the sending profile with id 1 of user 1; `GetSMTP` returns a nil
error together with the zero-valued `SMTP`, not the stored profile, while `GetSMTPByName`
returns the stored profile. -/
theorem GetSMTP_returns_zero_value :
    GetSMTP [sampleSMTP] 1 1 = (emptySMTP, none) ∧ sampleSMTP ≠ emptySMTP ∧
    GetSMTPByName [sampleSMTP] "Mail" 1 = (sampleSMTP, none) := by
  decide

/-- Whatever the store holds, `GetSMTP` returns the zero-valued `SMTP`. -/
theorem GetSMTP_fst (smtps : List SMTP) (id uid : Int) :
    (GetSMTP smtps id uid).1 = emptySMTP := by
  simp only [GetSMTP]
  cases FindOne SMTP.field smtps [("userid", Value.int64 uid), ("id", Value.int64 id)] <;> rfl

/-- The user id does not enter the result of `GetPage`. -/
theorem GetPage_uid_irrelevant (pages : List Page) (id uid uid2 : Int) :
    GetPage pages id uid = GetPage pages id uid2 := rfl

/-- The error returned by `DeletePage` is always nil. -/
theorem DeletePage_snd (pages : List Page) (id uid : Int) :
    (DeletePage pages id uid).2 = none := rfl

/-- With no page of the given name in the store, `GetPageByName` returns an error. -/
theorem GetPageByName_error_of_missing (pages : List Page) (n : String) (uid : Int)
    (h : ∀ p ∈ pages, p.Name ≠ n) :
    GetPageByName pages n uid =
      (emptyPage, some (Error.other ("no document found with name " ++ badVerbD n))) := by
  have hfind : pages.find? (fun d => matchesFilter (Page.field d) [("name", Value.string n)])
      = none := by
    rw [List.find?_eq_none]
    intro p hp
    simp [matchesFilter, Page.field, h p hp]
  simp [GetPageByName, FindOne, hfind]

/-! ## Sending profiles -/

/-- C19: `SMTP.Validate` returns `ErrFromAddressNotSpecified` whenever `FromAddress` is
empty, whatever the host, and `ErrHostNotSpecified` whenever `FromAddress` is non-empty
and `Host` is empty, whether or not the address parses. -/
theorem SMTP_Validate_required_fields (ParseAddress : String → Option Error) (s : SMTP) :
    (s.FromAddress = "" →
      s.Validate ParseAddress = some Error.ErrFromAddressNotSpecified) ∧
    (s.FromAddress ≠ "" → s.Host = "" →
      s.Validate ParseAddress = some Error.ErrHostNotSpecified) := by
  constructor
  · intro h
    simp [SMTP.Validate, h]
  · intro h1 h2
    simp [SMTP.Validate, h1, h2]

theorem SMTP_Validate_required_fields_witness :
    ({ sampleSMTP with FromAddress := "", Host := "a:b:c" } : SMTP).Validate sampleParseAddress
      = some Error.ErrFromAddressNotSpecified ∧
    sampleParseAddress "not an address" ≠ none ∧
    ({ sampleSMTP with FromAddress := "not an address", Host := "" } : SMTP).Validate
      sampleParseAddress = some Error.ErrHostNotSpecified :=
  ⟨(SMTP_Validate_required_fields sampleParseAddress _).1 rfl, by decide,
    (SMTP_Validate_required_fields sampleParseAddress _).2 (by decide) rfl⟩

theorem splitChars_eq (sep : Char) (l : List Char) :
    splitChars sep l =
      l.takeWhile (fun c => c != sep) ::
        (match l.dropWhile (fun c => c != sep) with
          | [] => []
          | _ :: rest => splitChars sep rest) := by
  induction l with
  | nil => rfl
  | cons c cs ih =>
    by_cases h : c = sep
    · subst h
      simp [splitChars, List.takeWhile, List.dropWhile]
    · have hb : (c != sep) = true := by simpa using h
      rw [splitChars, if_neg h, ih]
      simp [List.takeWhile, List.dropWhile, hb]

theorem length_splitChars (sep : Char) (l : List Char) :
    (splitChars sep l).length = l.count sep + 1 := by
  induction l with
  | nil => rfl
  | cons c cs ih =>
    by_cases h : c = sep
    · subst h
      simp [splitChars, ih]
    · have hne : (c == sep) = false := by simpa using h
      rw [splitChars, if_neg h]
      cases hs : splitChars sep cs with
      | nil => rw [hs] at ih; simp at ih
      | cons piece pieces =>
        rw [hs] at ih
        simp only [List.length_cons] at ih ⊢
        rw [List.count_cons, hne]
        simpa using ih

theorem dropWhile_of_count_zero (sep : Char) (l : List Char) (h : l.count sep = 0) :
    l.dropWhile (fun c => c != sep) = [] := by
  rw [List.dropWhile_eq_nil_iff]
  intro c hc
  have : sep ∉ l := List.count_eq_zero.mp h
  have hne : c ≠ sep := fun heq => this (heq ▸ hc)
  simpa using hne

theorem splitChars_of_count_zero (sep : Char) (l : List Char) (h : l.count sep = 0) :
    splitChars sep l = [l] := by
  rw [splitChars_eq, dropWhile_of_count_zero sep l h]
  simp only [List.cons.injEq, and_true]
  rw [List.takeWhile_eq_self_iff]
  intro c hc
  have : sep ∉ l := List.count_eq_zero.mp h
  have hne : c ≠ sep := fun heq => this (heq ▸ hc)
  simpa using hne

theorem count_dropWhile_tail (sep : Char) (l : List Char) :
    (l.dropWhile (fun c => c != sep)).tail.count sep = l.count sep - 1 := by
  induction l with
  | nil => rfl
  | cons c cs ih =>
    by_cases h : c = sep
    · subst h
      simp [List.dropWhile]
    · have hb : (c != sep) = true := by simpa using h
      have hne : (c == sep) = false := by simpa using h
      simp only [List.dropWhile, hb, List.count_cons, hne]
      simpa using ih

theorem splitChars_of_count_one (sep : Char) (l : List Char) (h : l.count sep = 1) :
    splitChars sep l =
      [l.takeWhile (fun c => c != sep), (l.dropWhile (fun c => c != sep)).tail] := by
  have hc := count_dropWhile_tail sep l
  rw [h] at hc
  rw [splitChars_eq]
  cases hd : l.dropWhile (fun c => c != sep) with
  | nil =>
    have hall := List.dropWhile_eq_nil_iff.mp hd
    have : sep ∉ l := by
      intro hmem
      have := hall sep hmem
      simp at this
    rw [List.count_eq_zero.mpr this] at h
    cases h
  | cons x rest =>
    rw [hd] at hc
    simp only [List.tail_cons] at hc ⊢
    rw [splitChars_of_count_zero sep rest hc]

theorem Atoi_default_port : Atoi "25" = Except.ok 25 := by
  rfl

/-- C20: for a sending profile with a non-empty, parseable `FromAddress` and a non-empty
`Host`, `SMTP.Validate` returns nil exactly when the host has no `:`, or has one `:` and
the text after it is accepted by `strconv.Atoi`; in every other case it returns
`ErrInvalidHost`.  A host without `:` is checked with the default port `"25"`. -/
theorem SMTP_Validate_host (ParseAddress : String → Option Error) (s : SMTP)
    (hfrom : s.FromAddress ≠ "") (hparse : ParseAddress s.FromAddress = none)
    (hhost : s.Host ≠ "") :
    (s.Validate ParseAddress = none ↔
      colons s.Host = 0 ∨ (colons s.Host = 1 ∧ ∃ n, Atoi (afterColon s.Host) = Except.ok n)) ∧
    (s.Validate ParseAddress = none ∨ s.Validate ParseAddress = some Error.ErrInvalidHost) ∧
    (colons s.Host = 0 → s.Validate ParseAddress = none ∧ Atoi "25" = Except.ok 25) := by
  have hlen : (Split s.Host).length = colons s.Host + 1 := by
    simp [Split, colons, length_splitChars]
  have hval : s.Validate ParseAddress =
      if 2 < (Split s.Host).length then some Error.ErrInvalidHost
      else
        match Atoi ((if (Split s.Host).length < 2 then Split s.Host ++ ["25"]
          else Split s.Host).getD 1 "") with
        | Except.error _ => some Error.ErrInvalidHost
        | Except.ok _ => none := by
    simp [SMTP.Validate, hfrom, hhost, hparse]
  have h0 : colons s.Host = 0 → s.Validate ParseAddress = none := by
    intro hc
    have hs : Split s.Host = [s.Host] := by
      simp only [Split]
      rw [splitChars_of_count_zero ':' _ hc]
      rfl
    rw [hval, hs]
    simp [Atoi_default_port]
  have h1 : colons s.Host = 1 → s.Validate ParseAddress =
      match Atoi (afterColon s.Host) with
      | Except.error _ => some Error.ErrInvalidHost
      | Except.ok _ => none := by
    intro hc
    have hs : Split s.Host = [String.mk (s.Host.toList.takeWhile (fun c => c != ':')),
        afterColon s.Host] := by
      simp only [Split]
      rw [splitChars_of_count_one ':' _ hc]
      rfl
    rw [hval, hs]
    simp
  have h2 : 2 ≤ colons s.Host → s.Validate ParseAddress = some Error.ErrInvalidHost := by
    intro hc
    rw [hval, if_pos (by omega)]
  rcases Nat.lt_or_ge (colons s.Host) 2 with hlt | hge
  · rcases Nat.lt_or_ge (colons s.Host) 1 with hz | hone
    · have hc : colons s.Host = 0 := by omega
      exact ⟨by simp [h0 hc, hc], Or.inl (h0 hc), fun _ => ⟨h0 hc, Atoi_default_port⟩⟩
    · have hc : colons s.Host = 1 := by omega
      rw [h1 hc]
      cases ha : Atoi (afterColon s.Host) with
      | error e => simp [hc]
      | ok n => simp [hc]
  · rw [h2 hge]
    refine ⟨?_, Or.inr rfl, ?_⟩
    · constructor
      · intro h; cases h
      · rintro (h | ⟨h, _⟩) <;> omega
    · intro h; omega

theorem SMTP_Validate_host_witness :
    sampleSMTP.FromAddress ≠ "" ∧ sampleParseAddress sampleSMTP.FromAddress = none ∧
    sampleSMTP.Host ≠ "" ∧ colons sampleSMTP.Host = 1 ∧
    Atoi (afterColon sampleSMTP.Host) = Except.ok 587 ∧
    sampleSMTP.Validate sampleParseAddress = none :=
  ⟨by decide, by decide, by decide, by decide, by rfl,
    (SMTP_Validate_host sampleParseAddress sampleSMTP (by decide) (by decide)
      (by decide)).1.mpr (Or.inr ⟨by decide, 587, by rfl⟩)⟩

/-! ## The dialer of a sending profile -/

theorem SMTP_Validate_nil_unfold (ParseAddress : String → Option Error) (s : SMTP)
    (h : s.Validate ParseAddress = none) :
    ¬ 2 < (Split s.Host).length ∧
    ∃ n, Atoi ((if (Split s.Host).length < 2 then Split s.Host ++ ["25"]
      else Split s.Host).getD 1 "") = Except.ok n := by
  unfold SMTP.Validate at h
  by_cases h1 : s.FromAddress = ""
  · simp [h1] at h
  by_cases h2 : s.Host = ""
  · simp [h1, h2] at h
  simp only [h1, h2, if_false] at h
  cases hp : ParseAddress s.FromAddress with
  | some e => simp [hp] at h
  | none =>
    simp only [hp] at h
    by_cases h3 : 2 < (Split s.Host).length
    · simp [h3] at h
    · refine ⟨h3, ?_⟩
      simp only [h3, if_false] at h
      cases ha : Atoi ((if (Split s.Host).length < 2 then Split s.Host ++ ["25"]
          else Split s.Host).getD 1 "") with
      | error e =>
        rw [ha] at h
        simp at h
      | ok n => exact ⟨n, rfl⟩

theorem Split_length (host : String) : (Split host).length = colons host + 1 := by
  simp [Split, colons, length_splitChars]

theorem Split_of_no_colon (host : String) (h : colons host = 0) : Split host = [host] := by
  simp only [Split]
  rw [splitChars_of_count_zero ':' _ h]
  rfl

theorem Split_of_one_colon (host : String) (h : colons host = 1) :
    Split host = [beforeColon host, afterColon host] := by
  simp only [Split]
  rw [splitChars_of_count_one ':' _ h]
  rfl

theorem beforeColon_of_no_colon (host : String) (h : colons host = 0) :
    beforeColon host = host := by
  have hs := splitChars_of_count_zero ':' host.toList h
  rw [splitChars_eq] at hs
  have ht : host.toList.takeWhile (fun c => c != ':') = host.toList := by
    simpa using (List.cons.inj hs).1
  show String.mk (host.toList.takeWhile (fun c => c != ':')) = host
  rw [ht]
  rfl

/-- C21: on every sending profile that `SMTP.Validate` accepts, `GetDialer` gets past its
port parse and builds a dialer; the dialed host is the text before the `:` of `Host`,
and the port is the number that `strconv.Atoi` reads after the `:`, or 25 when `Host`
has no `:`. -/
theorem GetDialer_after_Validate (ParseAddress : String → Option Error)
    (osHostname : String × Option Error) (s : SMTP)
    (h : s.Validate ParseAddress = none) :
    ∃ dlr : Dialer, (s.GetDialer osHostname).1 = some dlr ∧
      (s.GetDialer osHostname).2 = osHostname.2 ∧
      dlr.Host = beforeColon s.Host ∧
      (colons s.Host = 0 ∨ colons s.Host = 1) ∧
      (colons s.Host = 0 → dlr.Port = 25) ∧
      (colons s.Host = 1 → Atoi (afterColon s.Host) = Except.ok dlr.Port) := by
  obtain ⟨hlen, n, hn⟩ := SMTP_Validate_nil_unfold ParseAddress s h
  have hc : colons s.Host = 0 ∨ colons s.Host = 1 := by
    have := Split_length s.Host
    omega
  rcases hc with hc | hc
  · have hs := Split_of_no_colon s.Host hc
    have hport : n = 25 := by
      rw [hs] at hn
      simp only [List.length_singleton, Nat.one_lt_ofNat, if_true, List.singleton_append] at hn
      have h25 : Atoi "25" = Except.ok 25 := Atoi_default_port
      simp only [List.getD_cons_succ, List.getD_cons_zero] at hn
      rw [h25] at hn
      cases hn
      rfl
    subst hport
    refine ⟨{ Host := s.Host, Port := 25, Username := s.Username, Password := s.Password,
              ServerName := s.Host, InsecureSkipVerify := s.IgnoreCertErrors,
              LocalName := if osHostname.2 = none then osHostname.1 else "localhost" },
      ?_, ?_, ?_, Or.inl hc, fun _ => rfl, fun h1 => by omega⟩
    · simp [SMTP.GetDialer, hs, Atoi_default_port]
    · simp [SMTP.GetDialer, hs, Atoi_default_port]
    · exact (beforeColon_of_no_colon s.Host hc).symm
  · have hs := Split_of_one_colon s.Host hc
    have hport : Atoi (afterColon s.Host) = Except.ok n := by
      rw [hs] at hn
      simpa using hn
    refine ⟨{ Host := beforeColon s.Host, Port := n, Username := s.Username,
              Password := s.Password, ServerName := beforeColon s.Host,
              InsecureSkipVerify := s.IgnoreCertErrors,
              LocalName := if osHostname.2 = none then osHostname.1 else "localhost" },
      ?_, ?_, rfl, Or.inr hc, fun h0 => by omega, fun _ => hport⟩
    · simp [SMTP.GetDialer, hs, hport]
    · simp [SMTP.GetDialer, hs, hport]

theorem GetDialer_after_Validate_witness :
    sampleSMTP.Validate sampleParseAddress = none ∧
    ∃ dlr : Dialer, (sampleSMTP.GetDialer ("mailhost", none)).1 = some dlr ∧
      (sampleSMTP.GetDialer ("mailhost", none)).2 = none ∧
      dlr.Host = beforeColon sampleSMTP.Host ∧
      (colons sampleSMTP.Host = 0 ∨ colons sampleSMTP.Host = 1) ∧
      (colons sampleSMTP.Host = 0 → dlr.Port = 25) ∧
      (colons sampleSMTP.Host = 1 → Atoi (afterColon sampleSMTP.Host) = Except.ok dlr.Port) :=
  ⟨by decide,
    GetDialer_after_Validate sampleParseAddress ("mailhost", none) sampleSMTP (by decide)⟩

/-! ## Groups and templates -/

/-- C22: `Group.Validate` returns `ErrGroupNameNotSpecified` exactly when `Name` is empty,
`ErrNoTargetsSpecified` exactly when `Name` is non-empty and there are no targets, nil in
every other case, and leaves the group as it is. -/
theorem Group_Validate_cases (g : Group) :
    ((g.Validate).2 = some Error.ErrGroupNameNotSpecified ↔ g.Name = "") ∧
    ((g.Validate).2 = some Error.ErrNoTargetsSpecified ↔
      g.Name ≠ "" ∧ g.Targets.length = 0) ∧
    ((g.Validate).2 = none ↔ g.Name ≠ "" ∧ g.Targets.length ≠ 0) ∧
    (g.Validate).1 = g := by
  unfold Group.Validate
  by_cases h1 : g.Name = ""
  · simp [h1]
  · by_cases h2 : g.Targets.length = 0
    · simp [h1, h2]
    · simp [h1, h2]

theorem validateAttachments_eq_none {α : Type} (attachmentValidate : α → Option Error)
    (l : List α) :
    validateAttachments attachmentValidate l = none ↔ ∀ a ∈ l, attachmentValidate a = none := by
  induction l with
  | nil => simp [validateAttachments]
  | cons a rest ih =>
    cases ha : attachmentValidate a with
    | some e => simp [validateAttachments, ha]
    | none => simp [validateAttachments, ha, ih]

/-- C23: `Template.Validate` returns `ErrTemplateNameNotSpecified` whenever `Name` is
empty and `ErrTemplateMissingParameter` whenever `Name` is non-empty and both `Text` and
`HTML` are empty; for a template with a name and some content it returns nil exactly when
the `EnvelopeSender` is empty or parses, both `HTML` and `Text` pass the template
validator and every attachment passes its own `Validate`. -/
theorem Template_Validate_cases {α : Type} (ParseAddress : String → Option Error)
    (ValidateTemplate : String → Option Error) (attachmentValidate : α → Option Error)
    (t : Template α) :
    (t.Name = "" →
      t.Validate ParseAddress ValidateTemplate attachmentValidate
        = some Error.ErrTemplateNameNotSpecified) ∧
    (t.Name ≠ "" → t.Text = "" → t.HTML = "" →
      t.Validate ParseAddress ValidateTemplate attachmentValidate
        = some Error.ErrTemplateMissingParameter) ∧
    (t.Name ≠ "" → ¬ (t.Text = "" ∧ t.HTML = "") →
      (t.Validate ParseAddress ValidateTemplate attachmentValidate = none ↔
        (t.EnvelopeSender = "" ∨ ParseAddress t.EnvelopeSender = none) ∧
        ValidateTemplate t.HTML = none ∧ ValidateTemplate t.Text = none ∧
        ∀ a ∈ t.Attachments, attachmentValidate a = none)) := by
  refine ⟨?_, ?_, ?_⟩
  · intro h
    simp [Template.Validate, h]
  · intro h1 h2 h3
    simp [Template.Validate, h1, h2, h3]
  · intro h1 h2
    have hrest : ((match ValidateTemplate t.HTML with
        | some err => some err
        | none =>
          match ValidateTemplate t.Text with
          | some err => some err
          | none => validateAttachments attachmentValidate t.Attachments) = none) ↔
        (ValidateTemplate t.HTML = none ∧ ValidateTemplate t.Text = none ∧
          ∀ a ∈ t.Attachments, attachmentValidate a = none) := by
      cases hh : ValidateTemplate t.HTML with
      | some e => simp
      | none =>
        cases ht : ValidateTemplate t.Text with
        | some e => simp
        | none => simp [validateAttachments_eq_none]
    unfold Template.Validate
    simp only [h1, h2, if_false]
    by_cases h3 : t.EnvelopeSender = ""
    · simp only [h3, ne_eq, not_true_eq_false, if_false, true_or, true_and]
      exact hrest
    · simp only [ne_eq, h3, not_false_eq_true, if_true, false_or]
      cases hp : ParseAddress t.EnvelopeSender with
      | some e => simp
      | none =>
        simp only [true_and]
        exact hrest

theorem Template_Validate_cases_witness :
    sampleTemplate.Name ≠ "" ∧ ¬ (sampleTemplate.Text = "" ∧ sampleTemplate.HTML = "") ∧
    sampleTemplate.Validate sampleParseAddress sampleEnv.ValidateTemplate
      sampleAttachmentValidate = none ∧
    sampleParseAddress sampleTemplate.EnvelopeSender = none :=
  ⟨by decide, by decide, by decide,
    (((Template_Validate_cases sampleParseAddress sampleEnv.ValidateTemplate
      sampleAttachmentValidate sampleTemplate).2.2 (by decide) (by decide)).mp
        (by decide)).1.resolve_left (by decide)⟩

/-! ## The status of a result -/

theorem recipientHandlers_error (st : Statuses) (err : Error)
    (dbSave : Result → Option Error) (r : Result) :
    ∀ h ∈ recipientHandlers st (Except.error err) dbSave, h r = (r, some err) := by
  intro h hh
  simp only [recipientHandlers, List.mem_cons, List.mem_singleton, List.not_mem_nil,
    or_false] at hh
  rcases hh with rfl | rfl | rfl | rfl | rfl <;> rfl

/-- C24: under the five recipient-event handlers the status of a result never moves
backwards in the funnel Sent, Opened, Clicked, Submitted Data.  When the event cannot be
created a handler changes nothing.  Otherwise `HandleEmailOpened` keeps a status that is
Clicked or Submitted Data and else sets Opened, `HandleClickedLink` keeps Submitted Data
and else sets Clicked, `HandleAttachmentOpened` changes the status only from Sent to
Opened, `HandleEmailReport` keeps the status and `HandleFormSubmit` sets Submitted Data;
a status of Submitted Data is kept by all of them. -/
theorem Result_status_funnel (st : Statuses) (hd : st.distinct) (event : EventOutcome)
    (dbSave : Result → Option Error) (r : Result) :
    (∀ err, event = Except.error err →
      ∀ h ∈ recipientHandlers st event dbSave, (h r).1 = r) ∧
    (∀ time, event = Except.ok time →
      (r.Status = st.EventClicked ∨ r.Status = st.EventDataSubmit →
        (r.HandleEmailOpened st event dbSave).1.Status = r.Status) ∧
      (¬ (r.Status = st.EventClicked ∨ r.Status = st.EventDataSubmit) →
        (r.HandleEmailOpened st event dbSave).1.Status = st.EventOpened) ∧
      (r.Status = st.EventDataSubmit →
        (r.HandleClickedLink st event dbSave).1.Status = r.Status) ∧
      (r.Status ≠ st.EventDataSubmit →
        (r.HandleClickedLink st event dbSave).1.Status = st.EventClicked) ∧
      (r.Status = st.EventSent →
        (r.HandleAttachmentOpened st event dbSave).1.Status = st.EventOpened) ∧
      (r.Status ≠ st.EventSent →
        (r.HandleAttachmentOpened st event dbSave).1.Status = r.Status) ∧
      (r.HandleEmailReport event dbSave).1.Status = r.Status ∧
      (r.HandleFormSubmit st event dbSave).1.Status = st.EventDataSubmit) ∧
    (∀ k, funnelRank st r.Status = some k →
      ∀ h ∈ recipientHandlers st event dbSave,
        ∃ k2, funnelRank st (h r).1.Status = some k2 ∧ k ≤ k2) ∧
    (r.Status = st.EventDataSubmit →
      ∀ h ∈ recipientHandlers st event dbSave, (h r).1.Status = st.EventDataSubmit) := by
  obtain ⟨d1, d2, d3, d4, d5, d6⟩ := hd
  cases event with
  | error e =>
    have herr := recipientHandlers_error st e dbSave r
    refine ⟨?_, ?_, ?_, ?_⟩
    · intro err _ h hh
      rw [herr h hh]
    · intro time ht
      cases ht
    · intro k hk h hh
      rw [herr h hh]
      exact ⟨k, hk, Nat.le_refl k⟩
    · intro hs h hh
      rw [herr h hh]
      exact hs
  | ok t =>
    refine ⟨?_, ?_, ?_, ?_⟩
    · intro err he
      cases he
    · intro time _
      refine ⟨?_, ?_, ?_, ?_, ?_, ?_, ?_, ?_⟩
      · intro h
        simp [Result.HandleEmailOpened, h]
      · intro h
        simp [Result.HandleEmailOpened, h]
      · intro h
        simp [Result.HandleClickedLink, h]
      · intro h
        simp [Result.HandleClickedLink, h]
      · intro h
        simp [Result.HandleAttachmentOpened, h]
      · intro h
        simp [Result.HandleAttachmentOpened, h]
      · simp [Result.HandleEmailReport]
      · simp [Result.HandleFormSubmit]
    · intro k hk h hh
      simp only [recipientHandlers, List.mem_cons, List.mem_singleton, List.not_mem_nil,
        or_false] at hh
      unfold funnelRank at hk
      split_ifs at hk with h1 h2 h3 h4
      · cases hk
        rcases hh with rfl | rfl | rfl | rfl | rfl <;>
          simp [Result.HandleEmailOpened, Result.HandleAttachmentOpened,
            Result.HandleClickedLink, Result.HandleFormSubmit, Result.HandleEmailReport,
            funnelRank, h1, d1, d2, d3, d4, d5, d6, Ne.symm d1, Ne.symm d2, Ne.symm d3,
            Ne.symm d4, Ne.symm d5, Ne.symm d6]
      · cases hk
        rcases hh with rfl | rfl | rfl | rfl | rfl <;>
          simp [Result.HandleEmailOpened, Result.HandleAttachmentOpened,
            Result.HandleClickedLink, Result.HandleFormSubmit, Result.HandleEmailReport,
            funnelRank, h2, d1, d2, d3, d4, d5, d6, Ne.symm d1, Ne.symm d2, Ne.symm d3,
            Ne.symm d4, Ne.symm d5, Ne.symm d6]
      · cases hk
        rcases hh with rfl | rfl | rfl | rfl | rfl <;>
          simp [Result.HandleEmailOpened, Result.HandleAttachmentOpened,
            Result.HandleClickedLink, Result.HandleFormSubmit, Result.HandleEmailReport,
            funnelRank, h3, d1, d2, d3, d4, d5, d6, Ne.symm d1, Ne.symm d2, Ne.symm d3,
            Ne.symm d4, Ne.symm d5, Ne.symm d6]
      · cases hk
        rcases hh with rfl | rfl | rfl | rfl | rfl <;>
          simp [Result.HandleEmailOpened, Result.HandleAttachmentOpened,
            Result.HandleClickedLink, Result.HandleFormSubmit, Result.HandleEmailReport,
            funnelRank, h4, d1, d2, d3, d4, d5, d6, Ne.symm d1, Ne.symm d2, Ne.symm d3,
            Ne.symm d4, Ne.symm d5, Ne.symm d6]
    · intro hs h hh
      simp only [recipientHandlers, List.mem_cons, List.mem_singleton, List.not_mem_nil,
        or_false] at hh
      rcases hh with rfl | rfl | rfl | rfl | rfl <;>
        simp [Result.HandleEmailOpened, Result.HandleAttachmentOpened,
          Result.HandleClickedLink, Result.HandleFormSubmit, Result.HandleEmailReport,
          hs, Ne.symm d3]

theorem Result_status_funnel_witness :
    sampleStatuses.distinct ∧ sampleResult.Status = sampleStatuses.EventSent ∧
    (sampleResult.HandleClickedLink sampleStatuses (Except.ok 7) saveOk).1.Status
      = sampleStatuses.EventClicked ∧
    ((sampleResult.HandleClickedLink sampleStatuses (Except.ok 7) saveOk).1.HandleEmailOpened
      sampleStatuses (Except.ok 8) saveOk).1.Status = sampleStatuses.EventClicked :=
  ⟨⟨by decide, by decide, by decide, by decide, by decide, by decide⟩, by decide,
    ((Result_status_funnel sampleStatuses
      ⟨by decide, by decide, by decide, by decide, by decide, by decide⟩
      (Except.ok 7) saveOk sampleResult).2.1 7 rfl).2.2.2.1 (by decide),
    by decide⟩

/-! ## Result identifiers -/

theorem alphaNum_getD_mem (idx : Fin 62) :
    alphaNum.toList.getD idx.val 'a' ∈ alphaNum.toList := by
  have hlen : alphaNum.toList.length = 62 := by decide
  have hlt : idx.val < alphaNum.toList.length := by
    rw [hlen]
    exact idx.isLt
  rw [List.getD_eq_getElem _ _ hlt]
  exact List.getElem_mem hlt

theorem fillKey_ok (rnd : RandSource) (n pos : Nat) (k k2 : List Char) (pos2 : Nat)
    (h : fillKey rnd n pos k = (Except.ok k2, pos2)) :
    k2.length = k.length + n ∧ ∀ c ∈ k2, c ∈ k ∨ c ∈ alphaNum.toList := by
  induction n generalizing pos k with
  | zero =>
    simp only [fillKey, Prod.mk.injEq, Except.ok.injEq] at h
    obtain ⟨rfl, _⟩ := h
    exact ⟨rfl, fun c hc => Or.inl hc⟩
  | succ n ih =>
    unfold fillKey at h
    cases hr : rnd pos with
    | error e => simp [hr] at h
    | ok idx =>
      simp only [hr] at h
      obtain ⟨h1, h2⟩ := ih _ _ h
      refine ⟨by simp at h1; omega, ?_⟩
      intro c hc
      rcases h2 c hc with h3 | h3
      · simp only [List.mem_append, List.mem_singleton] at h3
        rcases h3 with h3 | rfl
        · exact Or.inl h3
        · exact Or.inr (alphaNum_getD_mem idx)
      · exact Or.inr h3

theorem fillKey_error (rnd : RandSource) (n pos : Nat) (k : List Char) (err : Error)
    (pos2 : Nat) (h : fillKey rnd n pos k = (Except.error err, pos2)) :
    ∃ i, rnd i = Except.error err := by
  induction n generalizing pos k with
  | zero => simp [fillKey] at h
  | succ n ih =>
    unfold fillKey at h
    cases hr : rnd pos with
    | error e =>
      simp only [hr, Prod.mk.injEq, Except.error.injEq] at h
      exact ⟨pos, by rw [hr, h.1]⟩
    | ok idx =>
      simp only [hr] at h
      exact ih _ _ h

theorem generateResultId_ok (rnd : RandSource) (pos : Nat) (rid : String) (pos2 : Nat)
    (h : generateResultId rnd pos = (Except.ok rid, pos2)) :
    rid.length = 7 ∧ ∀ c ∈ rid.toList, c ∈ alphaNum.toList := by
  unfold generateResultId at h
  cases hf : fillKey rnd 7 pos [] with
  | mk res p =>
    cases res with
    | error e => simp [hf] at h
    | ok k =>
      simp only [hf, Prod.mk.injEq, Except.ok.injEq] at h
      obtain ⟨rfl, _⟩ := h
      obtain ⟨h1, h2⟩ := fillKey_ok rnd 7 pos [] k p hf
      refine ⟨by simpa [String.length] using h1, ?_⟩
      intro c hc
      rcases h2 c hc with h3 | h3
      · simp at h3
      · exact h3

theorem generateResultId_error (rnd : RandSource) (pos : Nat) (err : Error) (pos2 : Nat)
    (h : generateResultId rnd pos = (Except.error err, pos2)) :
    ∃ i, rnd i = Except.error err := by
  unfold generateResultId at h
  cases hf : fillKey rnd 7 pos [] with
  | mk res p =>
    cases res with
    | ok k => simp [hf] at h
    | error e =>
      simp only [hf, Prod.mk.injEq, Except.error.injEq] at h
      obtain ⟨rfl, _⟩ := h
      exact fillKey_error rnd 7 pos [] e p hf

/-- C25: whenever `GenerateId` returns nil, the `RId` of the result has exactly 7
characters, each one of the 62 characters of `alphaNum`, and the lookup of that `RId`
reported record-not-found; whenever it returns an error, that error came from the random
source; nothing but `RId` is changed. -/
theorem GenerateId_unique_key (rnd : RandSource) (lookup : String → Option Error)
    (fuel pos : Nat) (r r2 : Result) (res : Option Error)
    (h : Result.GenerateId rnd lookup fuel pos r = some (r2, res)) :
    r2 = { r with RId := r2.RId } ∧
    (res = none →
      r2.RId.length = 7 ∧ (∀ c ∈ r2.RId.toList, c ∈ alphaNum.toList) ∧
      lookup r2.RId = some Error.ErrRecordNotFound) ∧
    (∀ err, res = some err → ∃ i, rnd i = Except.error err) := by
  induction fuel generalizing pos r with
  | zero => simp [Result.GenerateId] at h
  | succ fuel ih =>
    unfold Result.GenerateId at h
    cases hg : generateResultId rnd pos with
    | mk out p =>
      cases out with
      | error e =>
        simp only [hg, Option.some.injEq, Prod.mk.injEq] at h
        obtain ⟨rfl, rfl⟩ := h
        refine ⟨rfl, ?_, ?_⟩
        · intro hn
          cases hn
        · intro err he
          cases he
          exact generateResultId_error rnd pos _ p hg
      | ok rid =>
        simp only [hg] at h
        by_cases hl : lookup rid = some Error.ErrRecordNotFound
        · simp only [hl, if_true, Option.some.injEq, Prod.mk.injEq] at h
          obtain ⟨rfl, rfl⟩ := h
          obtain ⟨h1, h2⟩ := generateResultId_ok rnd pos rid p hg
          refine ⟨rfl, fun _ => ⟨h1, h2, hl⟩, ?_⟩
          intro err he
          cases he
        · simp only [hl, if_false] at h
          obtain ⟨h1, h2, h3⟩ := ih _ _ h
          refine ⟨?_, h2, h3⟩
          rw [h1]

theorem GenerateId_unique_key_witness :
    Result.GenerateId zeroSource emptyLookup 1 0 sampleResult
      = some ({ sampleResult with RId := "aaaaaaa" }, none) ∧
    ({ sampleResult with RId := "aaaaaaa" } : Result).RId.length = 7 ∧
    emptyLookup "aaaaaaa" = some Error.ErrRecordNotFound :=
  ⟨by decide,
    ((GenerateId_unique_key zeroSource emptyLookup 1 0 sampleResult
      { sampleResult with RId := "aaaaaaa" } none (by decide)).2.1 rfl).1,
    ((GenerateId_unique_key zeroSource emptyLookup 1 0 sampleResult
      { sampleResult with RId := "aaaaaaa" } none (by decide)).2.1 rfl).2.2⟩

/-! ## Creating a page -/

theorem Validate_Id (env : Env) (p : Page) : (p.Validate env).1.Id = p.Id := by
  by_cases hname : p.Name = ""
  · simp [Page.Validate, hname]
  · rw [Validate_of_name env p hname]
    cases hh : env.ValidateTemplate p.HTML with
    | some e => rfl
    | none =>
      cases hu : env.ValidateTemplate p.RedirectURL with
      | some e => rfl
      | none =>
        simp only []
        rw [parseHTML_fields env (normalizeFlags p)]
        rfl

theorem highestPage_spec (pages : List Page) (h : Page) (hh : highestPage pages = some h) :
    h ∈ pages ∧ ∀ q ∈ pages, q.Id ≤ h.Id := by
  induction pages generalizing h with
  | nil => simp [highestPage] at hh
  | cons p ps ih =>
    unfold highestPage at hh
    cases hps : highestPage ps with
    | none =>
      simp only [hps, Option.some.injEq] at hh
      subst hh
      have hnil : ps = [] := by
        cases ps with
        | nil => rfl
        | cons a as =>
          unfold highestPage at hps
          cases h2 : highestPage as with
          | none => simp [h2] at hps
          | some b =>
            simp only [h2] at hps
            split at hps <;> cases hps
      subst hnil
      simp
    | some q =>
      obtain ⟨hq1, hq2⟩ := ih q hps
      simp only [hps] at hh
      by_cases hle : q.Id ≤ p.Id
      · simp only [hle, if_true, Option.some.injEq] at hh
        subst hh
        refine ⟨List.mem_cons_self _ _, ?_⟩
        intro x hx
        rcases List.mem_cons.mp hx with rfl | hx
        · exact Int.le_refl _
        · exact Int.le_trans (hq2 x hx) hle
      · simp only [hle, if_false, Option.some.injEq] at hh
        subst hh
        refine ⟨List.mem_cons_of_mem _ hq1, ?_⟩
        intro x hx
        rcases List.mem_cons.mp hx with rfl | hx
        · omega
        · exact hq2 x hx

theorem highestPage_eq_none (pages : List Page) : highestPage pages = none ↔ pages = [] := by
  constructor
  · intro h
    cases pages with
    | nil => rfl
    | cons p ps =>
      unfold highestPage at h
      cases h2 : highestPage ps with
      | none => simp [h2] at h
      | some b =>
        simp only [h2] at h
        split at h <;> cases h
  · rintro rfl
    rfl

theorem wrapInt64_of_lt (x : Int) (h1 : -(2 ^ 63) ≤ x) (h2 : x < 2 ^ 63) : wrapInt64 x = x := by
  unfold wrapInt64
  have : (x + 2 ^ 63) % 2 ^ 64 = x + 2 ^ 63 := Int.emod_eq_of_lt (by omega) (by omega)
  omega

/-- C26 (as stated) fails: when the collection holds a page whose `Id` is the largest
`int64`, the `Id` given to the new page is the smallest `int64`, which is not greater
than the existing one. -/
theorem PostPage_id_wraps :
    (samplePage.Validate sampleEnv).2 = none ∧ maxIdPage.Id = 2 ^ 63 - 1 ∧
    (PostPage sampleEnv [maxIdPage] samplePage).2.1.Id = -(2 ^ 63) ∧
    ¬ maxIdPage.Id < (PostPage sampleEnv [maxIdPage] samplePage).2.1.Id := by
  decide

/-- C26 (as amended): when validation fails `PostPage` inserts nothing and leaves the `Id`
as it was; when validation succeeds the new page is appended with `Id` 1 if the
collection is empty and otherwise with the highest existing `Id` plus 1 in `int64`
arithmetic, which is greater than every existing `Id` provided the ids are `int64` values
and the highest one is below the largest `int64`. -/
theorem PostPage_assigns_id (env : Env) (pages : List Page) (p : Page) :
    (∀ err, (p.Validate env).2 = some err →
      (PostPage env pages p).1 = pages ∧ (PostPage env pages p).2.2 = some err ∧
      (PostPage env pages p).2.1.Id = p.Id) ∧
    ((p.Validate env).2 = none →
      (PostPage env pages p).2.2 = none ∧
      (PostPage env pages p).1 = pages ++ [(PostPage env pages p).2.1] ∧
      (pages = [] → (PostPage env pages p).2.1.Id = 1) ∧
      (∀ highest, highestPage pages = some highest →
        highest ∈ pages ∧ (∀ q ∈ pages, q.Id ≤ highest.Id) ∧
        (PostPage env pages p).2.1.Id = wrapInt64 (highest.Id + 1) ∧
        (idsInt64 pages → highest.Id < 2 ^ 63 - 1 →
          (PostPage env pages p).2.1.Id = highest.Id + 1 ∧
          ∀ q ∈ pages, q.Id < (PostPage env pages p).2.1.Id))) := by
  constructor
  · intro err herr
    have hid := Validate_Id env p
    unfold PostPage
    cases hv : p.Validate env with
    | mk p1 res =>
      rw [hv] at herr hid
      simp only at herr hid
      subst herr
      exact ⟨rfl, rfl, hid⟩
  · intro hok
    unfold PostPage
    cases hv : p.Validate env with
    | mk p1 res =>
      rw [hv] at hok
      simp only at hok
      subst hok
      refine ⟨rfl, rfl, ?_, ?_⟩
      · rintro rfl
        rfl
      · intro highest hh
        obtain ⟨hm, hmax⟩ := highestPage_spec pages highest hh
        refine ⟨hm, hmax, by simp [hh], ?_⟩
        intro hids hlt
        have hr := hids highest hm
        have hw : wrapInt64 (highest.Id + 1) = highest.Id + 1 :=
          wrapInt64_of_lt _ (by omega) (by omega)
        refine ⟨by simp [hh, hw], ?_⟩
        intro q hq
        have := hmax q hq
        simp only [hh, hw]
        omega

theorem PostPage_assigns_id_witness :
    (samplePage.Validate sampleEnv).2 = none ∧
    (PostPage sampleEnv [] samplePage).2.1.Id = 1 ∧
    (PostPage sampleEnv [{ samplePage with Id := 41 }] samplePage).2.1.Id = 42 ∧
    (namelessPage.Validate sampleEnv).2 = some Error.ErrPageNameNotSpecified ∧
    (PostPage sampleEnv [samplePage] namelessPage).1 = [samplePage] :=
  ⟨by decide,
    ((PostPage_assigns_id sampleEnv [] samplePage).2 (by decide)).2.2.1 rfl,
    by decide, by decide,
    ((PostPage_assigns_id sampleEnv [samplePage] namelessPage).1
      Error.ErrPageNameNotSpecified (by decide)).1⟩

/-! ## What the rewrite leaves alone -/

/-- C28: for every document and every flag combination, an element that is neither a
`<form>` nor an `<input>` inside a `<form>` keeps its attribute slice; so an `<input>`
outside every form keeps its `name` even when `CaptureCredentials` is false. -/
theorem parseHTML_touches_only_forms_and_their_inputs (env : Env) (c pw : Bool) (d : Node)
    (q : Path) (hform : tagAt q d ≠ some "form")
    (hinput : ¬ (tagAt q d = some "input" ∧ InsideForm d q)) :
    attrsAt q (rewriteForms env c pw d) = attrsAt q d ∧
    AttrAt (rewriteForms env c pw d) q "name" = AttrAt d q "name" := by
  have key : attrsAt q (rewriteForms env c pw d) = attrsAt q d := by
    apply attrsAt_rewriteForms_other
    intro e he heq
    rcases (mem_edits env c pw d e).mp he with ⟨h1, _⟩ | ⟨f, r, hf, hr, hi, _⟩
    · rw [heq] at h1
      exact hform h1
    · rw [heq] at hr hi
      exact hinput ⟨hi, f, r, hf, hr⟩
  exact ⟨key, by simp [AttrAt, key]⟩

theorem not_insideForm_outsideInput : ¬ InsideForm outsideInputDoc bodyFirst := by
  rintro ⟨f, r, hf, hq⟩
  have hcases : f = [] ∨ f = [Step.FirstChild, Step.NextSibling] := by
    rcases f with _ | ⟨a, _ | ⟨b, _ | ⟨c, f⟩⟩⟩
    · exact Or.inl rfl
    · simp [bodyFirst] at hq
    · simp only [bodyFirst, List.cons_append, List.nil_append, List.cons.injEq] at hq
      obtain ⟨rfl, rfl, _⟩ := hq
      exact Or.inr rfl
    · simp [bodyFirst] at hq
  rcases hcases with rfl | rfl
  · exact absurd hf (by decide)
  · exact absurd hf (by decide)

theorem parseHTML_touches_only_forms_and_their_inputs_witness :
    tagAt bodyFirst outsideInputDoc = some "input" ∧
    ¬ InsideForm outsideInputDoc bodyFirst ∧
    attrsAt bodyFirst (rewriteForms sampleEnv false false outsideInputDoc)
      = some [attr "name" "q"] ∧
    AttrAt (rewriteForms sampleEnv false false outsideInputDoc) bodyFirst "name"
      = ("q", true) :=
  ⟨by decide, not_insideForm_outsideInput,
    (parseHTML_touches_only_forms_and_their_inputs sampleEnv false false outsideInputDoc
      bodyFirst (by decide) (fun h => not_insideForm_outsideInput h.2)).1,
    (parseHTML_touches_only_forms_and_their_inputs sampleEnv false false outsideInputDoc
      bodyFirst (by decide) (fun h => not_insideForm_outsideInput h.2)).2⟩

/-! ## The stored copy of a result -/

/-- For every result, the stored document's `CampaignId` is the result's `Id`. -/
theorem resultz_CampaignId (r : Result) : (ReplacingForMongo.resultz r).CampaignId = r.Id :=
  rfl

/-- C29: for a result with `Id` 5 and `CampaignId` 9, the document that
`ReplacingForMongo` upserts has `CampaignId` 5, the result's `Id`, not 9; the filter
selects `id` 5 and the document is stored with `Id` 1. -/
theorem ReplacingForMongo_campaign_id_mismatch :
    sampleResult.Id = 5 ∧ sampleResult.CampaignId = 9 ∧
    ReplacingForMongo.filter sampleResult = [("id", Value.int64 5)] ∧
    sampleResult.ReplacingForMongo [] =
      [{ ReplacingForMongo.resultz sampleResult with Id := 1, CampaignId := 5 }] ∧
    (ReplacingForMongo.resultz sampleResult).CampaignId ≠ sampleResult.CampaignId := by
  decide

/-! ## The order of the edits -/

theorem node_ext (d1 d2 : Node) (hs : shape d1 = shape d2)
    (ha : ∀ q, attrsAt q d1 = attrsAt q d2) : d1 = d2 := by
  induction d1 generalizing d2 with
  | nil =>
    cases d2 <;> simp [shape] at hs
    rfl
  | leaf t s ns ih =>
    cases d2 with
    | nil => simp [shape] at hs
    | element tag a fc ns2 => simp [shape] at hs
    | leaf t2 s2 ns2 =>
      simp only [shape, Node.leaf.injEq] at hs
      obtain ⟨rfl, rfl, hns⟩ := hs
      have := ih ns2 hns (fun q => by
        have h := ha (Step.NextSibling :: q)
        rw [attrsAt_cons, attrsAt_cons] at h
        exact h)
      rw [this]
  | element tag a fc ns ihc ihs =>
    cases d2 with
    | nil => simp [shape] at hs
    | leaf t2 s2 ns2 => simp [shape] at hs
    | element tag2 a2 fc2 ns2 =>
      simp only [shape, Node.element.injEq, true_and] at hs
      obtain ⟨rfl, hfc, hns⟩ := hs
      have h0 : a = a2 := by
        have h := ha []
        simpa [attrsAt, nodeAt] using h
      have h1 := ihc fc2 hfc (fun q => by
        have h := ha (Step.FirstChild :: q)
        rw [attrsAt_cons, attrsAt_cons] at h
        exact h)
      have h2 := ihs ns2 hns (fun q => by
        have h := ha (Step.NextSibling :: q)
        rw [attrsAt_cons, attrsAt_cons] at h
        exact h)
      rw [h0, h1, h2]

theorem edits_same_at (env : Env) (c pw : Bool) (d : Node) (q : Path) :
    ∀ e ∈ edits env c pw d, e.1 = q →
      e.2 = if tagAt q d = some "form" then SetAttr "action" "" else inputEdit env c pw := by
  intro e he heq
  rcases (mem_edits env c pw d e).mp he with ⟨hf, hg⟩ | ⟨_, _, _, _, hi, hg⟩
  · rw [heq] at hf
    rw [if_pos hf, hg]
  · rw [heq] at hi
    have hne : tagAt q d ≠ some "form" := by
      rw [hi]
      decide
    rw [if_neg hne, hg]

theorem applyEdits_perm (env : Env) (c pw : Bool) (d : Node) (es : List Edit)
    (hes : es.Perm (edits env c pw d)) :
    applyEdits es d = applyEdits (edits env c pw d) d := by
  apply node_ext
  · rw [shape_applyEdits, shape_applyEdits]
  · intro q
    rw [attrsAt_applyEdits, attrsAt_applyEdits]
    congr 1
    funext a
    have hsame := edits_same_at env c pw d q
    have hsame2 : ∀ e ∈ es, e.1 = q →
        e.2 = if tagAt q d = some "form" then SetAttr "action" "" else inputEdit env c pw :=
      fun e he => hsame e (hes.mem_iff.mp he)
    rw [editsAt_same q _ es hsame2, editsAt_same q _ _ hsame,
      (hes.filter (fun e => decide (e.1 = q))).length_eq]

/-- C27: for every document, also one with nested forms, and every flag combination,
running the form callback over the forms in any order gives the tree that document order
gives; more generally, making the single attribute edits of the rewrite (one per form and
one per input of each form) in any order gives that tree. -/
theorem parseHTML_order_independent (env : Env) (c pw : Bool) (d : Node)
    (fs : List Path) (hfs : fs.Perm (Find d "form"))
    (es : List Edit) (hes : es.Perm (edits env c pw d)) :
    fs.foldl (eachForm env c pw) d = rewriteForms env c pw d ∧
    applyEdits es d = rewriteForms env c pw d := by
  constructor
  · rw [foldl_eachForm env c pw d fs d rfl, rewriteForms_eq]
    apply applyEdits_perm
    exact (hfs.map (formEdits env c pw d)).flatten
  · rw [rewriteForms_eq]
    exact applyEdits_perm env c pw d es hes

theorem parseHTML_order_independent_witness :
    Find nestedInputDoc "form" = [bodyFirst, bodyFirst ++ [Step.FirstChild, Step.FirstChild]] ∧
    [bodyFirst ++ [Step.FirstChild, Step.FirstChild], bodyFirst].foldl
      (eachForm sampleEnv true false) nestedInputDoc
      = rewriteForms sampleEnv true false nestedInputDoc ∧
    applyEdits (edits sampleEnv true false nestedInputDoc).reverse nestedInputDoc
      = rewriteForms sampleEnv true false nestedInputDoc :=
  ⟨by decide,
    (parseHTML_order_independent sampleEnv true false nestedInputDoc
      [bodyFirst ++ [Step.FirstChild, Step.FirstChild], bodyFirst]
      (by decide) _ (List.reverse_perm _)).1,
    (parseHTML_order_independent sampleEnv true false nestedInputDoc
      [bodyFirst ++ [Step.FirstChild, Step.FirstChild], bodyFirst]
      (by decide) _ (List.reverse_perm _)).2⟩

/-! ## Running the rewrite twice -/

/-- C3 (as stated) fails: the source `<form><div></form><form></form>` parses to a tree
with a form nested in a form and without any input; the first run of `parseHTML` writes
both forms, but reading that output back drops the inner form, so the second run writes a
different document. -/
theorem parseHTML_not_idempotent_on_nested_forms :
    singleName nestedTree = true ∧ singleName reparsedTree = true ∧
    (nestedPage.parseHTML tableEnv).2 = none ∧
    ((nestedPage.parseHTML tableEnv).1.parseHTML tableEnv).2 = none ∧
    (nestedPage.parseHTML tableEnv).1.HTML = nestedOutput ∧
    ((nestedPage.parseHTML tableEnv).1.parseHTML tableEnv).1.HTML =
      "<html><head></head><body><form action=\"\"><div></div></form></body></html>" ∧
    (nestedPage.parseHTML tableEnv).1.parseHTML tableEnv ≠ nestedPage.parseHTML tableEnv := by
  decide

/-- C3 (as amended): for every page whose HTML parses to a document `d` in which no
`<input>` carries more than one `name` attribute (or with both flags true), if reading
back the HTML that `parseHTML` wrote gives the tree that it serialized, then running
`parseHTML` again with the same flags gives the same page and the same error as running
it once; in the words of the specification, `Rewrite` maps its own output to itself. -/
theorem parseHTML_idempotent_of_roundtrip (env : Env) (p : Page) (d : Node)
    (hparse : env.NewDocumentFromReader p.HTML = Except.ok d)
    (hname : (p.CaptureCredentials = true ∧ p.CapturePasswords = true) ∨
      singleName d = true)
    (hround : env.NewDocumentFromReader
        (env.Html (rewriteForms env p.CaptureCredentials p.CapturePasswords d)).1
      = Except.ok (rewriteForms env p.CaptureCredentials p.CapturePasswords d)) :
    (p.parseHTML env).1.parseHTML env = p.parseHTML env ∧
    ∀ s, Rewrite env p.HTML p.CaptureCredentials p.CapturePasswords = Except.ok s →
      Rewrite env s p.CaptureCredentials p.CapturePasswords = Except.ok s := by
  have hidem := rewriteForms_idempotent_of_single env p.CaptureCredentials
    p.CapturePasswords d hname
  constructor
  · have h1 : p.parseHTML env =
        ({ p with HTML := (env.Html (rewriteForms env p.CaptureCredentials
            p.CapturePasswords d)).1 },
          (env.Html (rewriteForms env p.CaptureCredentials p.CapturePasswords d)).2) := by
      simp [Page.parseHTML, hparse]
    rw [h1]
    simp [Page.parseHTML, hround, hidem]
  · intro s hs
    simp only [Rewrite, hparse] at hs
    cases hr : (env.Html (rewriteForms env p.CaptureCredentials p.CapturePasswords d)).2 with
    | some e => simp [hr] at hs
    | none =>
      simp only [hr, Except.ok.injEq] at hs
      subst hs
      simp [Rewrite, hround, hidem, hr]

theorem parseHTML_idempotent_of_roundtrip_witness :
    singleName sampleDoc = true ∧
    (credentialsPage.parseHTML tableEnv).1.HTML = sampleOutput ∧
    (credentialsPage.parseHTML tableEnv).1.parseHTML tableEnv
      = credentialsPage.parseHTML tableEnv :=
  ⟨by decide, by decide,
    (parseHTML_idempotent_of_roundtrip tableEnv credentialsPage sampleDoc rfl
      (Or.inr (by decide)) rfl).1⟩

end Models
